import Mathlib

/-!
Shallow embedding of the Excel AI Engine's data-operations layer
(`src/excel_ai_engine_gemini.py`) and of the upload endpoint's
status-code logic, together with proofs settling the frozen claims
about them.

Tables model `pandas.DataFrame`s as a header of column names plus a
list of rows; cell values model the scalar values that occur in the
service's dataframes: finite numbers (exact rationals standing for the
ints/floats), the IEEE specials `inf`, `-inf` and `NaN` (NaN doubling
as pandas' null), text, and calendar dates (standing for datetime64
values).  The extra constructor `sqrtv q` canonically represents the
nonnegative square root of the rational `q`; it arises only as the
output of the `std` aggregation (pandas returns the float square root
of the sample variance; representing it symbolically keeps the
embedding exact and executable — `sqrtv` never occurs in loaded
tables, and equality of `sqrtv` representatives coincides with
equality of the represented reals since variances are nonnegative).
-/

inductive Value : Type where
  | num (q : Rat)
  | inf
  | negInf
  | nan
  | str (s : String)
  | date (y m d : Nat)
  | sqrtv (q : Rat)
deriving DecidableEq, Repr

namespace Value

/-- Numeric but non-null: a finite number or an infinity. -/
def isNumeric : Value → Bool
  | num _ | inf | negInf => true
  | _ => false

/-- Finite number. -/
def isFin : Value → Bool
  | num _ => true
  | _ => false

/-- pandas treats NaN as the missing value; `count`, `sum`, `mean`,
`min`, `max`, `std` all skip it. -/
def notNull : Value → Bool
  | nan => false
  | _ => true

/-- Elementwise `+` as pandas/Python apply it per cell: exact rational
addition extended with the IEEE special values, and string
concatenation on text; any other combination raises (`none`). -/
def addV : Value → Value → Option Value
  | num a, num b => some (num (a + b))
  | num _, inf => some inf
  | num _, negInf => some negInf
  | num _, nan => some nan
  | inf, num _ => some inf
  | inf, inf => some inf
  | inf, negInf => some nan
  | inf, nan => some nan
  | negInf, num _ => some negInf
  | negInf, inf => some nan
  | negInf, negInf => some negInf
  | negInf, nan => some nan
  | nan, num _ => some nan
  | nan, inf => some nan
  | nan, negInf => some nan
  | nan, nan => some nan
  | str a, str b => some (str (a ++ b))
  | _, _ => none

/-- Elementwise `-`: numeric only (Python raises on text). -/
def subV : Value → Value → Option Value
  | num a, num b => some (num (a - b))
  | num _, inf => some negInf
  | num _, negInf => some inf
  | num _, nan => some nan
  | inf, num _ => some inf
  | inf, inf => some nan
  | inf, negInf => some inf
  | inf, nan => some nan
  | negInf, num _ => some negInf
  | negInf, inf => some negInf
  | negInf, negInf => some nan
  | negInf, nan => some nan
  | nan, num _ => some nan
  | nan, inf => some nan
  | nan, negInf => some nan
  | nan, nan => some nan
  | _, _ => none

/-- Sign-aware product with an infinity. -/
def mulInfSign (pos : Bool) (q : Rat) : Value :=
  if q > 0 then (if pos then inf else negInf)
  else if q < 0 then (if pos then negInf else inf)
  else nan

/-- Elementwise `*`: IEEE semantics on numbers (`inf * 0 = NaN`), and
Python's string repetition `s * n` when one side is text and the other
a nonnegative integer (negative integers give the empty string; a
fractional factor raises). -/
def mulV : Value → Value → Option Value
  | num a, num b => some (num (a * b))
  | num a, inf => some (mulInfSign true a)
  | num a, negInf => some (mulInfSign false a)
  | num _, nan => some nan
  | inf, num b => some (mulInfSign true b)
  | inf, inf => some inf
  | inf, negInf => some negInf
  | inf, nan => some nan
  | negInf, num b => some (mulInfSign false b)
  | negInf, inf => some negInf
  | negInf, negInf => some inf
  | negInf, nan => some nan
  | nan, num _ => some nan
  | nan, inf => some nan
  | nan, negInf => some nan
  | nan, nan => some nan
  | str s, num q =>
      if q.den = 1 then some (str (String.join (List.replicate q.num.toNat s))) else none
  | num q, str s =>
      if q.den = 1 then some (str (String.join (List.replicate q.num.toNat s))) else none
  | _, _ => none

/-- Elementwise `/`: IEEE float-division semantics — a finite number
divided by zero gives `inf`, `-inf` or `NaN` according to the
numerator's sign, never an error (pandas promotes integer columns to
float for division). -/
def divV : Value → Value → Option Value
  | num a, num b =>
      if b = 0 then
        if a > 0 then some inf else if a < 0 then some negInf else some nan
      else some (num (a / b))
  | num _, inf => some (num 0)
  | num _, negInf => some (num 0)
  | num _, nan => some nan
  | inf, num b => some (if b < 0 then negInf else inf)
  | inf, inf => some nan
  | inf, negInf => some nan
  | inf, nan => some nan
  | negInf, num b => some (if b < 0 then inf else negInf)
  | negInf, inf => some nan
  | negInf, negInf => some nan
  | negInf, nan => some nan
  | nan, num _ => some nan
  | nan, inf => some nan
  | nan, negInf => some nan
  | nan, nan => some nan
  | _, _ => none

end Value

/-- Elementwise combination of two columns; any failing cell pair
makes the whole column operation fail, as a pandas binary Series
operation raises on the first incompatible pair. -/
def zipWithO (f : Value → Value → Option Value) : List Value → List Value → Option (List Value)
  | a :: as, b :: bs => do
    let c ← f a b
    let cs ← zipWithO f as bs
    pure (c :: cs)
  | _, _ => some []

/-- In-memory table: a `pandas.DataFrame` with named columns and a
list of rows (row-major; the dataframe's positional index is implicit). -/
structure Table where
  header : List String
  rows : List (List Value)
deriving DecidableEq, Repr

namespace Table

def nrows (t : Table) : Nat := t.rows.length

/-- Dataframe well-formedness: distinct column names, rectangular rows. -/
def WF (t : Table) : Prop :=
  t.header.Nodup ∧ ∀ r ∈ t.rows, r.length = t.header.length

instance (t : Table) : Decidable t.WF := by
  unfold WF; infer_instance

/-- Position of a column name in the header (`df.columns.get_loc`). -/
def colIdx (t : Table) (name : String) : Option Nat :=
  t.header.findIdx? (· = name)

/-- `df[name]` as a list of cells; `none` models the `KeyError` on a
missing column. -/
def getCol (t : Table) (name : String) : Option (List Value) :=
  (colIdx t name).map (fun i => t.rows.map (fun r => r.getD i Value.nan))

/-- `df[name] = col`: overwrite the column in place if the name
exists, else append it as a new last column. -/
def setCol (t : Table) (name : String) (col : List Value) : Table :=
  match colIdx t name with
  | some i => { header := t.header, rows := List.zipWith (fun r v => r.set i v) t.rows col }
  | none => { header := t.header ++ [name], rows := List.zipWith (fun r v => r ++ [v]) t.rows col }

end Table

/-- One arm of `DataOperationsEngine.basic_math`: read the two source
columns, combine them elementwise, store (or overwrite) the result
column.  A missing column (pandas `KeyError`) or an incompatible cell
pair is the caught exception re-raised as `ValueError`. -/
def mathStep (df : Table) (col1 col2 result_col : String)
    (f : Value → Value → Option Value) : Except String Table :=
  match df.getCol col1, df.getCol col2 with
  | some c1, some c2 =>
    match zipWithO f c1 c2 with
    | some res => .ok (df.setCol result_col res)
    | none => .error "Math operation failed"
  | _, _ => .error "Math operation failed"

/-- `DataOperationsEngine.basic_math` (lines 112–126): an `if`/`elif`
chain over the operation name; a name matching none of the four arms
falls through and the input dataframe is returned unchanged. -/
def basic_math (df : Table) (operation col1 col2 result_col : String) : Except String Table :=
  if operation = "add" then mathStep df col1 col2 result_col Value.addV
  else if operation = "subtract" then mathStep df col1 col2 result_col Value.subV
  else if operation = "multiply" then mathStep df col1 col2 result_col Value.mulV
  else if operation = "divide" then mathStep df col1 col2 result_col Value.divV
  else .ok df

/-- The elementwise denotation of each of the four operator names. -/
def opDenote (operation : String) : Value → Value → Option Value :=
  if operation = "add" then Value.addV
  else if operation = "subtract" then Value.subV
  else if operation = "multiply" then Value.mulV
  else if operation = "divide" then Value.divV
  else fun _ _ => none

/-! ### Column-access lemmas -/

namespace Table

theorem colIdx_lt {t : Table} {name : String} {i : Nat} (h : t.colIdx name = some i) :
    i < t.header.length :=
  (List.findIdx?_eq_some_iff_findIdx_eq.mp h).1

theorem colIdx_header_get {t : Table} {name : String} {i : Nat} (h : t.colIdx name = some i) :
    t.header[i]? = some name := by
  obtain ⟨hlt, hidx⟩ := List.findIdx?_eq_some_iff_findIdx_eq.mp h
  have hw : t.header.findIdx (fun x => decide (x = name)) < t.header.length := by omega
  have hp := List.findIdx_getElem (w := hw)
  rw [List.getElem?_eq_getElem hlt]
  simp only [hidx] at hp
  simp only [decide_eq_true_eq] at hp
  simp [hp]

theorem colIdx_none_iff {t : Table} {name : String} :
    t.colIdx name = none ↔ name ∉ t.header := by
  unfold colIdx
  rw [List.findIdx?_eq_none_iff]
  constructor
  · intro h hmem
    have := h name hmem
    simp at this
  · intro h x hx
    simp only [decide_eq_false_iff_not]
    intro he
    exact h (he ▸ hx)

theorem colIdx_isSome_of_mem {t : Table} {name : String} (h : name ∈ t.header) :
    ∃ i, t.colIdx name = some i := by
  cases hc : t.colIdx name with
  | none => exact absurd h (colIdx_none_iff.mp hc)
  | some i => exact ⟨i, rfl⟩

theorem getCol_length {t : Table} {name : String} {c : List Value}
    (h : t.getCol name = some c) : c.length = t.nrows := by
  unfold getCol at h
  rw [Option.map_eq_some'] at h
  obtain ⟨i, _, hmap⟩ := h
  simp [← hmap, nrows]

theorem getCol_isSome_of_mem {t : Table} {name : String} (h : name ∈ t.header) :
    ∃ c, t.getCol name = some c := by
  obtain ⟨i, hi⟩ := colIdx_isSome_of_mem h
  refine ⟨t.rows.map (fun r => r.getD i Value.nan), ?_⟩
  unfold getCol
  rw [hi]
  rfl

theorem getCol_none_iff {t : Table} {name : String} :
    t.getCol name = none ↔ name ∉ t.header := by
  unfold getCol
  cases hc : t.colIdx name with
  | none => simp [colIdx_none_iff.mp hc]
  | some i =>
    simp only [Option.map_some']
    constructor
    · intro h; simp at h
    · intro h
      rw [colIdx_none_iff.mpr h] at hc
      simp at hc

end Table

/-! ### Pointwise lemmas about row updates -/

theorem map_getD_zipWith_set {rows : List (List Value)} {res : List Value} {i : Nat}
    (hlen : res.length = rows.length) (hi : ∀ r ∈ rows, i < r.length) :
    (List.zipWith (fun r v => r.set i v) rows res).map (fun r => r.getD i Value.nan) = res := by
  induction rows generalizing res with
  | nil => cases res <;> simp_all
  | cons r rs ih =>
    cases res with
    | nil => simp at hlen
    | cons v vs =>
      simp only [List.zipWith_cons_cons, List.map_cons]
      have hr : i < r.length := hi r (by simp)
      congr 1
      · rw [List.getD_eq_getElem?_getD, List.getElem?_set_self hr]
        rfl
      · exact ih (by simpa using hlen) (fun x hx => hi x (by simp [hx]))

theorem map_getD_zipWith_set_ne {rows : List (List Value)} {res : List Value} {i j : Nat}
    (hlen : res.length = rows.length) (hij : i ≠ j) :
    (List.zipWith (fun r v => r.set i v) rows res).map (fun r => r.getD j Value.nan) =
      rows.map (fun r => r.getD j Value.nan) := by
  induction rows generalizing res with
  | nil => cases res <;> simp_all
  | cons r rs ih =>
    cases res with
    | nil => simp at hlen
    | cons v vs =>
      simp only [List.zipWith_cons_cons, List.map_cons]
      congr 1
      · rw [List.getD_eq_getElem?_getD, List.getElem?_set_ne hij, ← List.getD_eq_getElem?_getD]
      · exact ih (by simpa using hlen) 

theorem map_getD_zipWith_append {rows : List (List Value)} {res : List Value} {n : Nat}
    (hlen : res.length = rows.length) (hrect : ∀ r ∈ rows, r.length = n) :
    (List.zipWith (fun r v => r ++ [v]) rows res).map (fun r => r.getD n Value.nan) = res := by
  induction rows generalizing res with
  | nil => cases res <;> simp_all
  | cons r rs ih =>
    cases res with
    | nil => simp at hlen
    | cons v vs =>
      simp only [List.zipWith_cons_cons, List.map_cons]
      have hr : r.length = n := hrect r (by simp)
      congr 1
      · rw [List.getD_eq_getElem?_getD, List.getElem?_append_right (by omega)]
        simp [hr]
      · exact ih (by simpa using hlen) (fun x hx => hrect x (by simp [hx]))

theorem map_getD_zipWith_append_ne {rows : List (List Value)} {res : List Value} {j : Nat}
    (hlen : res.length = rows.length) (hj : ∀ r ∈ rows, j < r.length) :
    (List.zipWith (fun r v => r ++ [v]) rows res).map (fun r => r.getD j Value.nan) =
      rows.map (fun r => r.getD j Value.nan) := by
  induction rows generalizing res with
  | nil => cases res <;> simp_all
  | cons r rs ih =>
    cases res with
    | nil => simp at hlen
    | cons v vs =>
      simp only [List.zipWith_cons_cons, List.map_cons]
      congr 1
      · rw [List.getD_eq_getElem?_getD, List.getElem?_append_left (hj r (by simp)),
          ← List.getD_eq_getElem?_getD]
      · exact ih (by simpa using hlen) (fun x hx => hj x (by simp [hx]))

namespace Table

theorem nrows_setCol {t : Table} {name : String} {res : List Value}
    (h : res.length = t.nrows) : (t.setCol name res).nrows = t.nrows := by
  unfold setCol
  cases hc : t.colIdx name <;>
    simp [nrows, List.length_zipWith] <;>
    simp [nrows] at h <;> omega

theorem getCol_setCol_self {t : Table} {name : String} {res : List Value}
    (hwf : t.WF) (hlen : res.length = t.nrows) :
    (t.setCol name res).getCol name = some res := by
  unfold setCol
  cases hc : t.colIdx name with
  | some i =>
    have hi : i < t.header.length := colIdx_lt hc
    simp only [getCol, colIdx]
    rw [show List.findIdx? (fun x => decide (x = name)) t.header = some i from hc]
    simp only [Option.map_some', Option.some.injEq]
    exact map_getD_zipWith_set (by simpa [nrows] using hlen)
      (fun r hr => by rw [hwf.2 r hr]; exact hi)
  | none =>
    simp only [getCol, colIdx]
    have h1 : List.findIdx? (fun x => decide (x = name)) [name] = some 0 := by simp
    rw [List.findIdx?_append,
      show List.findIdx? (fun x => decide (x = name)) t.header = none from hc, h1]
    simp only [Option.none_or, Option.map_some', Option.some.injEq, Nat.zero_add]
    exact map_getD_zipWith_append (by simpa [nrows] using hlen) (fun r hr => hwf.2 r hr)

theorem getCol_setCol_ne {t : Table} {name name' : String} {res : List Value}
    (hwf : t.WF) (hlen : res.length = t.nrows) (hne : name' ≠ name) :
    (t.setCol name res).getCol name' = t.getCol name' := by
  unfold setCol
  cases hc : t.colIdx name with
  | some i =>
    simp only [getCol, colIdx]
    cases hc' : List.findIdx? (fun x => decide (x = name')) t.header with
    | none => rfl
    | some j =>
      simp only [Option.map_some', Option.some.injEq]
      have hj : t.header[j]? = some name' := @colIdx_header_get t name' j hc'
      have hi : t.header[i]? = some name := @colIdx_header_get t name i hc
      have hij : i ≠ j := by
        intro he
        rw [he, hj] at hi
        have hxy : some name = some name' := hi.symm
        have hxy2 : name = name' := by simpa using hxy
        exact hne hxy2.symm
      exact map_getD_zipWith_set_ne (by simpa [nrows] using hlen) hij
  | none =>
    have hnn : ¬ (name = name') := fun h => hne h.symm
    have h1 : List.findIdx? (fun x => decide (x = name')) [name] = none := by simp [hnn]
    simp only [getCol, colIdx]
    rw [List.findIdx?_append, h1]
    cases hc' : List.findIdx? (fun x => decide (x = name')) t.header with
    | none => rfl
    | some j =>
      simp only [Option.map_none', Option.or_none, Option.map_some', Option.some.injEq]
      have hj : j < t.header.length := @colIdx_lt t name' j hc'
      exact map_getD_zipWith_append_ne (by simpa [nrows] using hlen)
        (fun r hr => by rw [hwf.2 r hr]; exact hj)

theorem header_setCol_mem {t : Table} {name : String} {res : List Value} (h : name ∈ t.header) :
    (t.setCol name res).header = t.header := by
  unfold setCol
  obtain ⟨i, hi⟩ := colIdx_isSome_of_mem h
  rw [hi]

theorem header_setCol_fresh {t : Table} {name : String} {res : List Value} (h : name ∉ t.header) :
    (t.setCol name res).header = t.header ++ [name] := by
  unfold setCol
  rw [colIdx_none_iff.mpr h]

theorem WF_setCol {t : Table} {name : String} {res : List Value}
    (hwf : t.WF) (hlen : res.length = t.nrows) (hfresh : name ∉ t.header) :
    (t.setCol name res).WF := by
  constructor
  · rw [header_setCol_fresh hfresh]
    simp [List.nodup_append, hwf.1, hfresh]
  · intro r hr
    rw [header_setCol_fresh hfresh]
    unfold setCol at hr
    rw [colIdx_none_iff.mpr hfresh] at hr
    simp only at hr
    rw [List.mem_iff_getElem?] at hr
    obtain ⟨n, hn⟩ := hr
    rw [List.getElem?_zipWith] at hn
    cases h1 : t.rows[n]? with
    | none => rw [h1] at hn; simp at hn
    | some r0 =>
      cases h2 : res[n]? with
      | none => rw [h1, h2] at hn; simp at hn
      | some v =>
        rw [h1, h2] at hn
        simp only [Option.map_some', Option.some.injEq] at hn
        have hr0 : r0 ∈ t.rows := List.getElem?_mem h1
        have := hwf.2 r0 hr0
        simp [← hn, this]

end Table

/-! ### zipWithO lemmas -/

theorem zipWithO_nil_left {f : Value → Value → Option Value} {l2 : List Value} :
    zipWithO f [] l2 = some [] := by cases l2 <;> rfl

theorem zipWithO_nil_right {f : Value → Value → Option Value} {l1 : List Value} :
    zipWithO f l1 [] = some [] := by cases l1 <;> rfl

theorem zipWithO_cons {f : Value → Value → Option Value} {a b : Value} {as bs : List Value} :
    zipWithO f (a :: as) (b :: bs) =
      (f a b).bind (fun c => (zipWithO f as bs).bind (fun cs => some (c :: cs))) := rfl

theorem zipWithO_length {f : Value → Value → Option Value} :
    ∀ {l1 l2 res : List Value}, zipWithO f l1 l2 = some res →
      res.length = min l1.length l2.length := by
  intro l1
  induction l1 with
  | nil =>
    intro l2 res h
    rw [zipWithO_nil_left] at h
    cases h
    simp
  | cons a as ih =>
    intro l2 res h
    cases l2 with
    | nil =>
      rw [zipWithO_nil_right] at h
      cases h
      simp
    | cons b bs =>
      rw [zipWithO_cons] at h
      cases hf : f a b with
      | none => rw [hf] at h; simp at h
      | some c =>
        rw [hf] at h
        cases hz : zipWithO f as bs with
        | none => rw [hz] at h; simp at h
        | some cs =>
          rw [hz] at h
          simp at h
          subst h
          simp only [List.length_cons]
          rw [ih hz]
          omega

theorem zipWithO_isSome {f : Value → Value → Option Value}
    (hf : ∀ a b : Value, a.isFin → b.isFin → (f a b).isSome) :
    ∀ (l1 l2 : List Value), (∀ a ∈ l1, a.isFin) → (∀ b ∈ l2, b.isFin) →
      ∃ res, zipWithO f l1 l2 = some res := by
  intro l1
  induction l1 with
  | nil => intro l2 _ _; exact ⟨[], zipWithO_nil_left⟩
  | cons a as ih =>
    intro l2 h1 h2
    cases l2 with
    | nil => exact ⟨[], zipWithO_nil_right⟩
    | cons b bs =>
      have ha : a.isFin := h1 a (by simp)
      have hb : b.isFin := h2 b (by simp)
      obtain ⟨c, hc⟩ := Option.isSome_iff_exists.mp (hf a b ha hb)
      obtain ⟨cs, hcs⟩ := ih bs (fun x hx => h1 x (by simp [hx])) (fun x hx => h2 x (by simp [hx]))
      exact ⟨c :: cs, by simp [zipWithO_cons, hc, hcs]⟩

theorem zipWithO_getElem? {f : Value → Value → Option Value} :
    ∀ {l1 l2 res : List Value}, zipWithO f l1 l2 = some res →
      ∀ {i : Nat} {a b : Value}, l1[i]? = some a → l2[i]? = some b → res[i]? = f a b := by
  intro l1
  induction l1 with
  | nil => intro l2 res _ i a b h1 _; simp at h1
  | cons x xs ih =>
    intro l2 res h i a b h1 h2
    cases l2 with
    | nil => simp at h2
    | cons y ys =>
      rw [zipWithO_cons] at h
      cases hf : f x y with
      | none => rw [hf] at h; simp at h
      | some c =>
        rw [hf] at h
        cases hz : zipWithO f xs ys with
        | none => rw [hz] at h; simp at h
        | some cs =>
          rw [hz] at h
          simp at h
          subst h
          cases i with
          | zero =>
            simp only [List.getElem?_cons_zero, Option.some.injEq] at h1 h2
            subst h1; subst h2
            simpa using hf.symm
          | succ n =>
            simp only [List.getElem?_cons_succ] at h1 h2 ⊢
            exact ih hz h1 h2

/-! ### The four operators are total on finite numbers -/

theorem addV_isSome_of_fin : ∀ a b : Value, a.isFin → b.isFin → (Value.addV a b).isSome := by
  intro a b ha hb
  cases a <;> cases b <;> simp_all [Value.isFin, Value.addV]

theorem subV_isSome_of_fin : ∀ a b : Value, a.isFin → b.isFin → (Value.subV a b).isSome := by
  intro a b ha hb
  cases a <;> cases b <;> simp_all [Value.isFin, Value.subV]

theorem mulV_isSome_of_fin : ∀ a b : Value, a.isFin → b.isFin → (Value.mulV a b).isSome := by
  intro a b ha hb
  cases a <;> cases b <;> simp_all [Value.isFin, Value.mulV]

theorem divV_isSome_of_fin : ∀ a b : Value, a.isFin → b.isFin → (Value.divV a b).isSome := by
  intro a b ha hb
  cases a <;> cases b <;> simp_all [Value.isFin, Value.divV] <;> split_ifs <;> simp

theorem opDenote_isSome_of_fin (operation : String)
    (hop : operation = "add" ∨ operation = "subtract" ∨ operation = "multiply" ∨
      operation = "divide") :
    ∀ a b : Value, a.isFin → b.isFin → ((opDenote operation) a b).isSome := by
  rcases hop with h | h | h | h <;> subst h <;>
    simp only [opDenote] <;>
    norm_num <;>
    first
      | exact addV_isSome_of_fin
      | exact subV_isSome_of_fin
      | exact mulV_isSome_of_fin
      | exact divV_isSome_of_fin

theorem basic_math_eq_mathStep {operation : String} (df : Table) (col1 col2 result_col : String)
    (hop : operation = "add" ∨ operation = "subtract" ∨ operation = "multiply" ∨
      operation = "divide") :
    basic_math df operation col1 col2 result_col =
      mathStep df col1 col2 result_col (opDenote operation) := by
  rcases hop with h | h | h | h <;> subst h <;> rfl

/-! ### Claims about basic_math -/

/-- C1: for every table and every math operation whose operator is one
of add, subtract, multiply, divide and whose two source columns exist
and hold (finite) numeric values, `basic_math` succeeds, the returned
table has the same row count as the input, and its result column
equals, row for row, the elementwise application of the operator to
the two source columns. -/
theorem basic_math_elementwise (t : Table) (operation col1 col2 result_col : String)
    (c1 c2 : List Value) (hwf : t.WF)
    (hop : operation = "add" ∨ operation = "subtract" ∨ operation = "multiply" ∨
      operation = "divide")
    (h1 : t.getCol col1 = some c1) (h2 : t.getCol col2 = some c2)
    (hn1 : ∀ v ∈ c1, v.isFin) (hn2 : ∀ v ∈ c2, v.isFin) :
    ∃ t', basic_math t operation col1 col2 result_col = .ok t' ∧
      t'.nrows = t.nrows ∧
      t'.getCol result_col = zipWithO (opDenote operation) c1 c2 := by
  rw [basic_math_eq_mathStep t col1 col2 result_col hop]
  obtain ⟨res, hres⟩ := zipWithO_isSome (opDenote_isSome_of_fin operation hop) c1 c2 hn1 hn2
  have hlen : res.length = t.nrows := by
    rw [zipWithO_length hres, Table.getCol_length h1, Table.getCol_length h2]
    simp
  refine ⟨t.setCol result_col res, ?_, ?_, ?_⟩
  · unfold mathStep
    rw [h1, h2]
    simp only [hres]
  · exact Table.nrows_setCol hlen
  · rw [Table.getCol_setCol_self hwf hlen, hres]

/-- A small concrete dataframe used to witness the `basic_math` claims. -/
def sampleMathTable : Table :=
  { header := ["a", "b"],
    rows := [[Value.num 6, Value.num 3], [Value.num 5, Value.num 0]] }

theorem basic_math_elementwise_witness :
    ∃ t', basic_math sampleMathTable "add" "a" "b" "c" = .ok t' ∧
      t'.nrows = sampleMathTable.nrows ∧
      t'.getCol "c" =
        zipWithO (opDenote "add") [Value.num 6, Value.num 5] [Value.num 3, Value.num 0] :=
  basic_math_elementwise sampleMathTable "add" "a" "b" "c"
    [Value.num 6, Value.num 5] [Value.num 3, Value.num 0]
    (by decide) (Or.inl rfl) (by decide) (by decide) (by decide) (by decide)

/-- C9: a divide operation over two existing finite-number columns does
not fail when the divisor column contains a zero: the whole operation
succeeds, and each result cell whose divisor is zero is `inf`, `-inf`
or `NaN` according to the sign of the numerator. -/
theorem basic_math_divide_by_zero (t : Table) (col1 col2 result_col : String)
    (c1 c2 : List Value) (hwf : t.WF)
    (h1 : t.getCol col1 = some c1) (h2 : t.getCol col2 = some c2)
    (hn1 : ∀ v ∈ c1, v.isFin) (hn2 : ∀ v ∈ c2, v.isFin) :
    ∃ t' res, basic_math t "divide" col1 col2 result_col = .ok t' ∧
      t'.getCol result_col = some res ∧
      ∀ (i : Nat) (a : Rat), c1[i]? = some (Value.num a) → c2[i]? = some (Value.num 0) →
        res[i]? = some (if 0 < a then Value.inf else if a < 0 then Value.negInf
          else Value.nan) := by
  have hop : ("divide" : String) = "add" ∨ ("divide" : String) = "subtract" ∨
      ("divide" : String) = "multiply" ∨ ("divide" : String) = "divide" := by
    right; right; right; rfl
  rw [basic_math_eq_mathStep t col1 col2 result_col hop]
  obtain ⟨res, hres⟩ := zipWithO_isSome (opDenote_isSome_of_fin "divide" hop) c1 c2 hn1 hn2
  have hlen : res.length = t.nrows := by
    rw [zipWithO_length hres, Table.getCol_length h1, Table.getCol_length h2]
    simp
  refine ⟨t.setCol result_col res, res, ?_, ?_, ?_⟩
  · unfold mathStep
    rw [h1, h2]
    simp only [hres]
  · exact Table.getCol_setCol_self hwf hlen
  · intro i a hi1 hi2
    have hcell := zipWithO_getElem? hres hi1 hi2
    rw [hcell]
    show Value.divV (Value.num a) (Value.num 0) = _
    rcases lt_trichotomy (0 : Rat) a with hlt | heq | hgt
    · simp [Value.divV, hlt, lt_asymm hlt]
    · subst heq
      simp [Value.divV]
    · simp [Value.divV, hgt, lt_asymm hgt]

theorem basic_math_divide_by_zero_witness :
    ∃ t' res, basic_math sampleMathTable "divide" "a" "b" "c" = .ok t' ∧
      t'.getCol "c" = some res ∧
      ∀ (i : Nat) (a : Rat),
        ([Value.num 6, Value.num 5] : List Value)[i]? = some (Value.num a) →
        ([Value.num 3, Value.num 0] : List Value)[i]? = some (Value.num 0) →
        res[i]? = some (if 0 < a then Value.inf else if a < 0 then Value.negInf
          else Value.nan) :=
  basic_math_divide_by_zero sampleMathTable "a" "b" "c"
    [Value.num 6, Value.num 5] [Value.num 3, Value.num 0]
    (by decide) (by decide) (by decide) (by decide) (by decide)

/-- C10: an operation name matching none of add, subtract, multiply,
divide falls through the `if`/`elif` chain of `basic_math`: no error is
raised and the input table is returned unchanged (in particular the two
source columns are never even read). -/
theorem basic_math_unknown_noop (t : Table) (operation col1 col2 result_col : String)
    (hop : ¬(operation = "add" ∨ operation = "subtract" ∨ operation = "multiply" ∨
      operation = "divide")) :
    basic_math t operation col1 col2 result_col = .ok t := by
  push_neg at hop
  simp [basic_math, hop.1, hop.2.1, hop.2.2.1, hop.2.2.2]

theorem basic_math_unknown_noop_witness :
    basic_math sampleMathTable "modulo" "a" "b" "c" = .ok sampleMathTable :=
  basic_math_unknown_noop sampleMathTable "modulo" "a" "b" "c" (by decide)

/-! ### The aggregation engine (`DataOperationsEngine.aggregations`) -/

namespace Value

/-- Numeric or null (NaN): the cell kinds a float column can hold. -/
def isNumOrNull : Value → Bool
  | num _ | inf | negInf | nan => true
  | _ => false

/-- Elementwise minimum: the order `-inf < finite numbers < inf` on
numeric cells, lexicographic order on text (as Python's `<`), NaN
propagating; comparing text with numbers raises (`none`). -/
def minV : Value → Value → Option Value
  | num a, num b => some (num (min a b))
  | num a, inf => some (num a)
  | num _, negInf => some negInf
  | num _, nan => some nan
  | inf, num b => some (num b)
  | inf, inf => some inf
  | inf, negInf => some negInf
  | inf, nan => some nan
  | negInf, num _ => some negInf
  | negInf, inf => some negInf
  | negInf, negInf => some negInf
  | negInf, nan => some nan
  | nan, num _ => some nan
  | nan, inf => some nan
  | nan, negInf => some nan
  | nan, nan => some nan
  | str a, str b => some (str (min a b))
  | _, _ => none

/-- Elementwise maximum, dual to `minV`. -/
def maxV : Value → Value → Option Value
  | num a, num b => some (num (max a b))
  | num _, inf => some inf
  | num a, negInf => some (num a)
  | num _, nan => some nan
  | inf, num _ => some inf
  | inf, inf => some inf
  | inf, negInf => some inf
  | inf, nan => some nan
  | negInf, num b => some (num b)
  | negInf, inf => some inf
  | negInf, negInf => some negInf
  | negInf, nan => some nan
  | nan, num _ => some nan
  | nan, inf => some nan
  | nan, negInf => some nan
  | nan, nan => some nan
  | str a, str b => some (str (max a b))
  | _, _ => none

def toRat : Value → Option Rat
  | num q => some q
  | _ => none

end Value

/-- `series.sum()`: skip the nulls, then fold Python's `+` over the
remaining cells (empty and all-null series sum to `0`; a text series
concatenates in row order; mixed text/number raises). -/
def seriesSum (l : List Value) : Option Value :=
  match l.filter Value.notNull with
  | [] => some (Value.num 0)
  | x :: xs => xs.foldlM Value.addV x

/-- `series.mean()`: null-skipping sum divided by the non-null count;
the mean of an empty or all-null series is NaN; text raises. -/
def seriesMean (l : List Value) : Option Value :=
  let vs := l.filter Value.notNull
  if vs.isEmpty then some Value.nan
  else do
    let s ← seriesSum l
    Value.divV s (Value.num (vs.length : Rat))

/-- `series.min()`: null-skipping fold of the pairwise minimum; NaN on
an empty or all-null series. -/
def seriesMin (l : List Value) : Option Value :=
  match l.filter Value.notNull with
  | [] => some Value.nan
  | x :: xs => xs.foldlM Value.minV x

/-- `series.max()`, dual to `seriesMin`. -/
def seriesMax (l : List Value) : Option Value :=
  match l.filter Value.notNull with
  | [] => some Value.nan
  | x :: xs => xs.foldlM Value.maxV x

/-- `series.count()`: the number of non-null cells. -/
def seriesCount (l : List Value) : Option Value :=
  some (Value.num ((l.filter Value.notNull).length : Rat))

/-- `series.std()`: the sample standard deviation (`ddof = 1`) over the
non-null cells — NaN when fewer than two values or when an infinity is
present, an error on non-numeric cells.  The result is the square root
of the exact sample variance, represented canonically by `sqrtv`. -/
def seriesStd (l : List Value) : Option Value :=
  let vs := l.filter Value.notNull
  if vs.all Value.isNumeric then
    if vs.length ≤ 1 then some Value.nan
    else if vs.all Value.isFin then
      let qs := vs.filterMap Value.toRat
      let n : Rat := (qs.length : Rat)
      let s : Rat := qs.sum
      let s2 : Rat := (qs.map (fun q => q * q)).sum
      some (Value.sqrtv ((s2 - s * s / n) / (n - 1)))
    else some Value.nan
  else none

/-- The six aggregation function names the `if`/`elif` chain of
`aggregations` recognises. -/
def aggKnown (func : String) : Bool :=
  func = "sum" || func = "mean" || func = "min" || func = "max" ||
    func = "count" || func = "std"

/-- Dispatch of a recognised function name to its series aggregation. -/
def aggApply (func : String) (col : List Value) : Option Value :=
  if func = "sum" then seriesSum col
  else if func = "mean" then seriesMean col
  else if func = "min" then seriesMin col
  else if func = "max" then seriesMax col
  else if func = "count" then seriesCount col
  else if func = "std" then seriesStd col
  else none

/-- The Python dict `result` of `aggregations`, insertion ordered.
Assignment `result[key] = value` overwrites in place when the key is
already present (dict keys are unique, so replacing the first
occurrence is exact) and appends otherwise. -/
abbrev Record := List (String × Value)

def insertR : Record → String → Value → Record
  | [], k, v => [(k, v)]
  | p :: rs, k, v => if p.1 = k then (k, v) :: rs else p :: insertR rs k v

def findR (r : Record) (k : String) : Option Value :=
  (r.find? (fun p => p.1 = k)).map (fun p => p.2)

/-- One iteration of the nested loop of `aggregations` (lines 133–146):
a recognised function name reads the column (`KeyError` on a missing
one) and stores the scalar under `"<col>_<func>"`; an unrecognised name
matches no branch of the chain and leaves the dict untouched. -/
def aggStep (df : Table) (r : Record) (col func : String) : Except String Record :=
  if aggKnown func then
    match df.getCol col with
    | none => .error "Aggregation failed"
    | some c =>
      match aggApply func c with
      | none => .error "Aggregation failed"
      | some v => .ok (insertR r (col ++ "_" ++ func) v)
  else .ok r

/-- `DataOperationsEngine.aggregations` (lines 128–149): the nested
loop over columns and function names building the flat result record.
(The code finally wraps the dict in a one-row dataframe, which the
aggregate endpoint immediately unwraps again with
`to_dict('records')[0]`; the record itself is what the claims are
about.) -/
def aggregations (df : Table) (columns agg_funcs : List String) : Except String Record :=
  columns.foldlM (fun r col => agg_funcs.foldlM (fun r func => aggStep df r col func) r) []

/-! ### Keys of the aggregation record -/

theorem aggKnown_cases {f : String} (h : aggKnown f) :
    f = "sum" ∨ f = "mean" ∨ f = "min" ∨ f = "max" ∨ f = "count" ∨ f = "std" := by
  simp only [aggKnown, Bool.or_eq_true, decide_eq_true_eq] at h
  tauto

theorem aggSuffix_eq {f1 f2 : String} (h1 : aggKnown f1) (h2 : aggKnown f2)
    (hs : ('_' :: f1.data) <:+ ('_' :: f2.data)) : f1 = f2 := by
  rcases aggKnown_cases h1 with h | h | h | h | h | h <;> subst h <;>
    rcases aggKnown_cases h2 with h | h | h | h | h | h <;> subst h <;>
    first
      | rfl
      | (exfalso; revert hs; decide)

/-- Distinct (column, function) pairs with recognised function names
always produce distinct `"<col>_<func>"` keys: none of the six
function names is a (`'_'`-preceded) suffix of another. -/
theorem aggKey_inj {c1 f1 c2 f2 : String} (h1 : aggKnown f1) (h2 : aggKnown f2)
    (h : c1 ++ "_" ++ f1 = c2 ++ "_" ++ f2) : c1 = c2 ∧ f1 = f2 := by
  have hd : c1.data ++ ('_' :: f1.data) = c2.data ++ ('_' :: f2.data) := by
    have h' := congrArg String.data h
    simpa [String.data_append, List.append_assoc] using h'
  have hs1 : ('_' :: f1.data) <:+ (c2.data ++ ('_' :: f2.data)) := ⟨c1.data, hd⟩
  have hs2 : ('_' :: f2.data) <:+ (c2.data ++ ('_' :: f2.data)) := ⟨c2.data, rfl⟩
  have hf : f1 = f2 := by
    rcases le_total f1.data.length f2.data.length with hle | hle
    · exact aggSuffix_eq h1 h2
        (List.suffix_of_suffix_length_le hs1 hs2 (by simpa using Nat.succ_le_succ hle))
    · exact (aggSuffix_eq h2 h1
        (List.suffix_of_suffix_length_le hs2 hs1 (by simpa using Nat.succ_le_succ hle))).symm
  subst hf
  refine ⟨?_, rfl⟩
  exact String.ext (List.append_inj' hd rfl).1

theorem findR_insertR_self (r : Record) (k : String) (v : Value) :
    findR (insertR r k v) k = some v := by
  induction r with
  | nil =>
    unfold insertR findR
    rw [List.find?_cons_of_pos _ (by simp)]
    rfl
  | cons p rs ih =>
    by_cases hp : p.1 = k
    · unfold insertR findR
      rw [if_pos hp, List.find?_cons_of_pos _ (by simp)]
      rfl
    · unfold insertR findR
      rw [if_neg hp, List.find?_cons_of_neg _ (by simp [hp])]
      exact ih

theorem findR_insertR_ne (r : Record) {k k' : String} (v : Value) (h : k' ≠ k) :
    findR (insertR r k v) k' = findR r k' := by
  induction r with
  | nil =>
    unfold insertR findR
    rw [List.find?_cons_of_neg _ (by simp [Ne.symm h])]
  | cons p rs ih =>
    by_cases hp : p.1 = k
    · unfold insertR findR
      rw [if_pos hp, List.find?_cons_of_neg _ (by simp [Ne.symm h]),
        List.find?_cons_of_neg _ (by simp [hp, Ne.symm h])]
    · by_cases hp' : p.1 = k'
      · unfold insertR findR
        rw [if_neg hp, List.find?_cons_of_pos _ (by simp [hp']),
          List.find?_cons_of_pos _ (by simp [hp'])]
      · unfold insertR findR
        rw [if_neg hp, List.find?_cons_of_neg _ (by simp [hp']),
          List.find?_cons_of_neg _ (by simp [hp'])]
        exact ih

/-- Stepping the `Except` fold through a successful iteration. -/
theorem foldlM_except_cons_ok {α β : Type} {g : β → α → Except String β} {b b' : β} {x : α}
    (h : g b x = .ok b') (xs : List α) :
    List.foldlM g b (x :: xs) = List.foldlM g b' xs := by
  rw [List.foldlM_cons, h]
  rfl

/-- Invariant of the inner loop of `aggregations` (over the function
names, for one fixed column). -/
theorem aggFuncs_fold (df : Table) (c : String) (l : List Value)
    (hl : df.getCol c = some l) :
    ∀ funcs : List String, (∀ f ∈ funcs, aggKnown f → (aggApply f l).isSome) →
    ∀ r0 : Record, ∃ r,
      funcs.foldlM (fun r func => aggStep df r c func) r0 = .ok r ∧
      (∀ f ∈ funcs, aggKnown f → findR r (c ++ "_" ++ f) = aggApply f l) ∧
      (∀ k : String, (¬∃ f ∈ funcs, aggKnown f ∧ k = c ++ "_" ++ f) →
        findR r k = findR r0 k) := by
  intro funcs
  induction funcs with
  | nil =>
    intro _ r0
    exact ⟨r0, rfl, by simp, fun k _ => rfl⟩
  | cons f fs ih =>
    intro hok r0
    by_cases hk : aggKnown f
    · have hsome : (aggApply f l).isSome := hok f (by simp) hk
      obtain ⟨v, hv⟩ := Option.isSome_iff_exists.mp hsome
      have hstep : aggStep df r0 c f = .ok (insertR r0 (c ++ "_" ++ f) v) := by
        simp [aggStep, hk, hl, hv]
      obtain ⟨r, hfold, hvals, hframe⟩ :=
        ih (fun f' hf' => hok f' (by simp [hf'])) (insertR r0 (c ++ "_" ++ f) v)
      refine ⟨r, ?_, ?_, ?_⟩
      · rw [foldlM_except_cons_ok hstep]
        exact hfold
      · intro f' hf' hk'
        rcases List.mem_cons.mp hf' with he | hmem
        · subst he
          by_cases hin : ∃ f'' ∈ fs, aggKnown f'' ∧ (c ++ "_" ++ f') = c ++ "_" ++ f''
          · obtain ⟨f'', hmem'', hk'', hkey⟩ := hin
            have heq : f' = f'' := (aggKey_inj hk' hk'' hkey).2
            rw [hkey, hvals f'' hmem'' hk'', heq]
          · rw [hframe _ hin, findR_insertR_self]
            exact hv.symm
        · exact hvals f' hmem hk'
      · intro k hknot
        have hk1 : ¬∃ f'' ∈ fs, aggKnown f'' ∧ k = c ++ "_" ++ f'' := by
          rintro ⟨f'', hmem'', hk'', hkey⟩
          exact hknot ⟨f'', by simp [hmem''], hk'', hkey⟩
        have hkne : k ≠ c ++ "_" ++ f := fun he => hknot ⟨f, by simp, hk, he⟩
        rw [hframe k hk1, findR_insertR_ne _ _ hkne]
    · have hstep : aggStep df r0 c f = .ok r0 := by simp [aggStep, hk]
      obtain ⟨r, hfold, hvals, hframe⟩ := ih (fun f' hf' => hok f' (by simp [hf'])) r0
      refine ⟨r, ?_, ?_, ?_⟩
      · rw [foldlM_except_cons_ok hstep]
        exact hfold
      · intro f' hf' hk'
        rcases List.mem_cons.mp hf' with he | hmem
        · subst he
          exact absurd hk' hk
        · exact hvals f' hmem hk'
      · intro k hknot
        refine hframe k ?_
        rintro ⟨f'', hmem'', hk'', hkey⟩
        exact hknot ⟨f'', by simp [hmem''], hk'', hkey⟩

/-- Invariant of the outer loop of `aggregations` (over the columns). -/
theorem aggCols_fold (df : Table) (funcs : List String) :
    ∀ cols : List String,
      (∀ c ∈ cols, ∃ l, df.getCol c = some l) →
      (∀ c ∈ cols, ∀ f ∈ funcs, aggKnown f → ∀ l, df.getCol c = some l →
        (aggApply f l).isSome) →
      ∀ r0 : Record, ∃ r,
        cols.foldlM (fun r col => funcs.foldlM (fun r func => aggStep df r col func) r) r0 =
          .ok r ∧
        (∀ c ∈ cols, ∀ f ∈ funcs, aggKnown f → ∀ l, df.getCol c = some l →
          findR r (c ++ "_" ++ f) = aggApply f l) ∧
        (∀ k : String, (¬∃ c ∈ cols, ∃ f ∈ funcs, aggKnown f ∧ k = c ++ "_" ++ f) →
          findR r k = findR r0 k) := by
  intro cols
  induction cols with
  | nil =>
    intro _ _ r0
    exact ⟨r0, rfl, by simp, fun k _ => rfl⟩
  | cons c cs ih =>
    intro hcol hok r0
    obtain ⟨l, hl⟩ := hcol c (by simp)
    obtain ⟨r1, hfold1, hvals1, hframe1⟩ :=
      aggFuncs_fold df c l hl funcs
        (fun f hf hk => hok c (by simp) f hf hk l hl) r0
    obtain ⟨r, hfold, hvals, hframe⟩ :=
      ih (fun c' hc' => hcol c' (by simp [hc']))
        (fun c' hc' f hf hk l' hl' => hok c' (by simp [hc']) f hf hk l' hl') r1
    refine ⟨r, ?_, ?_, ?_⟩
    · simp only [List.foldlM_cons]
      rw [hfold1]
      exact hfold
    · intro c' hc' f hf hk l' hl'
      rcases List.mem_cons.mp hc' with he | hmem
      · subst he
        have hll : l' = l := by
          rw [hl] at hl'
          exact (Option.some.injEq _ _ ▸ hl').symm
        subst hll
        by_cases hin : ∃ c'' ∈ cs, ∃ f'' ∈ funcs, aggKnown f'' ∧
            (c' ++ "_" ++ f) = c'' ++ "_" ++ f''
        · obtain ⟨c'', hmem'', f'', hf'', hk'', hkey⟩ := hin
          obtain ⟨hceq, hfeq⟩ := aggKey_inj hk hk'' hkey
          rw [hkey, hvals c'' hmem'' f'' hf'' hk'' l' (by rw [← hceq]; exact hl), hfeq]
        · rw [hframe _ hin]
          exact hvals1 f hf hk
      · exact hvals c' hmem f hf hk l' hl'
    · intro k hknot
      have hk1 : ¬∃ c'' ∈ cs, ∃ f'' ∈ funcs, aggKnown f'' ∧ k = c'' ++ "_" ++ f'' := by
        rintro ⟨c'', hmem'', f'', hf'', hk'', hkey⟩
        exact hknot ⟨c'', by simp [hmem''], f'', hf'', hk'', hkey⟩
      have hk2 : ¬∃ f'' ∈ funcs, aggKnown f'' ∧ k = c ++ "_" ++ f'' := by
        rintro ⟨f'', hf'', hk'', hkey⟩
        exact hknot ⟨c, by simp, f'', hf'', hk'', hkey⟩
      rw [hframe k hk1, hframe1 k hk2]

/-- C2: for every table, every list of column names present in it and
every list of aggregation-function names whose recognised applications
succeed, `aggregations` returns a flat record whose keys are exactly
`"<column>_<function>"` for the (column, function) pairs whose function
is one of sum, mean, min, max, count, std, each mapped to the
corresponding scalar over that column; a function name outside these
six contributes no key and raises no error. -/
theorem aggregations_keys_exact (df : Table) (columns agg_funcs : List String)
    (hcol : ∀ c ∈ columns, ∃ l, df.getCol c = some l)
    (hok : ∀ c ∈ columns, ∀ f ∈ agg_funcs, aggKnown f → ∀ l, df.getCol c = some l →
      (aggApply f l).isSome) :
    ∃ r, aggregations df columns agg_funcs = .ok r ∧
      (∀ k : String,
        (findR r k).isSome ↔ ∃ c ∈ columns, ∃ f ∈ agg_funcs, aggKnown f ∧ k = c ++ "_" ++ f) ∧
      (∀ c ∈ columns, ∀ f ∈ agg_funcs, aggKnown f → ∀ l, df.getCol c = some l →
        findR r (c ++ "_" ++ f) = aggApply f l) := by
  obtain ⟨r, hfold, hvals, hframe⟩ := aggCols_fold df agg_funcs columns hcol hok []
  refine ⟨r, hfold, ?_, hvals⟩
  intro k
  constructor
  · intro hsome
    by_contra hno
    rw [hframe k hno] at hsome
    simp [findR] at hsome
  · rintro ⟨c, hc, f, hf, hk, rfl⟩
    obtain ⟨l, hl⟩ := hcol c hc
    rw [hvals c hc f hf hk l hl]
    exact hok c hc f hf hk l hl

/-- A numeric one-column dataframe used to witness the aggregation
claims; note `"median"` in the requested function list. -/
def sampleAggTable : Table :=
  { header := ["salary"], rows := [[Value.num 100], [Value.num 200]] }

theorem aggregations_keys_exact_witness :
    ∃ r, aggregations sampleAggTable ["salary"] ["mean", "median"] = .ok r ∧
      (∀ k : String, (findR r k).isSome ↔
        ∃ c ∈ ["salary"], ∃ f ∈ ["mean", "median"], aggKnown f ∧ k = c ++ "_" ++ f) ∧
      (∀ c ∈ ["salary"], ∀ f ∈ ["mean", "median"], aggKnown f →
        ∀ l, sampleAggTable.getCol c = some l →
          findR r (c ++ "_" ++ f) = aggApply f l) :=
  aggregations_keys_exact sampleAggTable ["salary"] ["mean", "median"]
    (by
      intro c hc
      simp only [List.mem_singleton] at hc
      subst hc
      exact ⟨[Value.num 100, Value.num 200], by decide⟩)
    (by
      intro c hc f hf hk l hl
      simp only [List.mem_singleton] at hc
      subst hc
      have hval : sampleAggTable.getCol "salary" = some [Value.num 100, Value.num 200] := by
        decide
      rw [hval] at hl
      have hll : l = [Value.num 100, Value.num 200] := by
        injection hl with hl'
        exact hl'.symm
      subst hll
      rcases List.mem_cons.mp hf with he | hmem
      · subst he
        decide
      · simp only [List.mem_singleton] at hmem
        subst hmem
        exact absurd hk (by decide))

/-! ### Order independence of the series aggregations -/

/-- Total version of `addV` on numeric-or-null cells (junk NaN
elsewhere), used to reason about the sum fold. -/
def addN (a b : Value) : Value := (Value.addV a b).getD Value.nan

/-- Total version of `minV` on numeric cells. -/
def minN (a b : Value) : Value := (Value.minV a b).getD Value.nan

/-- Total version of `maxV` on numeric cells. -/
def maxN (a b : Value) : Value := (Value.maxV a b).getD Value.nan

theorem addV_eq_addN {a b : Value} (ha : a.isNumOrNull) (hb : b.isNumOrNull) :
    Value.addV a b = some (addN a b) := by
  cases a <;> cases b <;> simp_all [Value.isNumOrNull, Value.addV, addN]

theorem addN_numOrNull {a b : Value} (ha : a.isNumOrNull) (hb : b.isNumOrNull) :
    (addN a b).isNumOrNull := by
  cases a <;> cases b <;> simp_all [Value.isNumOrNull, Value.addV, addN]

theorem addN_zero {x : Value} (hx : x.isNumOrNull) : addN (Value.num 0) x = x := by
  cases x <;> simp_all [Value.isNumOrNull, Value.addV, addN]

theorem addN_leftcomm {x y : Value} (hx : x.isNumOrNull) (hy : y.isNumOrNull) (z : Value) :
    addN (addN z x) y = addN (addN z y) x := by
  cases z <;> cases x <;> cases y <;>
    simp_all [Value.isNumOrNull, Value.addV, addN] <;>
    ring

theorem foldlM_addV_eq {xs : List Value} :
    ∀ {x : Value}, x.isNumOrNull → (∀ v ∈ xs, v.isNumOrNull) →
      xs.foldlM Value.addV x = some (xs.foldl addN x) := by
  induction xs with
  | nil => intro x _ _; rfl
  | cons y ys ih =>
    intro x hx hxs
    have hy : y.isNumOrNull := hxs y (by simp)
    rw [List.foldlM_cons, addV_eq_addN hx hy]
    show ys.foldlM Value.addV (addN x y) = _
    rw [ih (addN_numOrNull hx hy) (fun v hv => hxs v (by simp [hv])), List.foldl_cons]

theorem seriesSum_eq_foldl {l : List Value} (h : ∀ v ∈ l, v.isNumOrNull) :
    seriesSum l = some ((l.filter Value.notNull).foldl addN (Value.num 0)) := by
  unfold seriesSum
  cases hf : l.filter Value.notNull with
  | nil => rfl
  | cons x xs =>
    have hmem : ∀ v ∈ x :: xs, v.isNumOrNull := by
      intro v hv
      exact h v (List.mem_of_mem_filter (hf ▸ hv))
    show xs.foldlM Value.addV x = some (List.foldl addN (Value.num 0) (x :: xs))
    rw [List.foldl_cons, addN_zero (hmem x (by simp)),
      foldlM_addV_eq (hmem x (by simp)) (fun v hv => hmem v (by simp [hv]))]

theorem seriesSum_perm {l1 l2 : List Value} (hp : l1.Perm l2)
    (h1 : ∀ v ∈ l1, v.isNumOrNull) : seriesSum l1 = seriesSum l2 := by
  have h2 : ∀ v ∈ l2, v.isNumOrNull := fun v hv => h1 v (hp.mem_iff.mpr hv)
  rw [seriesSum_eq_foldl h1, seriesSum_eq_foldl h2]
  have hpf := hp.filter Value.notNull
  have hcomm : ∀ x ∈ l1.filter Value.notNull, ∀ y ∈ l1.filter Value.notNull, ∀ z,
      addN (addN z x) y = addN (addN z y) x := by
    intro x hx y hy z
    exact addN_leftcomm
      (by
        have := h1 x (List.mem_of_mem_filter hx)
        exact this)
      (h1 y (List.mem_of_mem_filter hy)) z
  rw [hpf.foldl_eq' hcomm (Value.num 0)]

theorem numOrNull_filter_numeric {l : List Value} (h : ∀ v ∈ l, v.isNumOrNull) :
    ∀ v ∈ l.filter Value.notNull, v.isNumeric := by
  intro v hv
  have h1 := h v (List.mem_of_mem_filter hv)
  have h2 := List.of_mem_filter hv
  cases v <;> simp_all [Value.isNumOrNull, Value.notNull, Value.isNumeric]

/-- Accumulating fold used to relate the head-seeded series fold to a
permutation-stable fold from `none`. -/
def optFold (g : Value → Value → Value) (acc : Option Value) (v : Value) : Option Value :=
  match acc with
  | none => some v
  | some m => some (g m v)

theorem foldl_optFold_some {g : Value → Value → Value} {xs : List Value} :
    ∀ {x : Value}, xs.foldl (optFold g) (some x) = some (xs.foldl g x) := by
  induction xs with
  | nil => intro x; rfl
  | cons y ys ih => intro x; rw [List.foldl_cons, List.foldl_cons]; exact ih

theorem minV_eq_minN {a b : Value} (ha : a.isNumeric) (hb : b.isNumeric) :
    Value.minV a b = some (minN a b) := by
  cases a <;> cases b <;> simp_all [Value.isNumeric, Value.minV, minN]

theorem minN_numeric {a b : Value} (ha : a.isNumeric) (hb : b.isNumeric) :
    (minN a b).isNumeric := by
  cases a <;> cases b <;> simp_all [Value.isNumeric, Value.minV, minN]

theorem minN_comm {x y : Value} (hx : x.isNumeric) (hy : y.isNumeric) :
    minN x y = minN y x := by
  cases x <;> cases y <;> simp_all [Value.isNumeric, Value.minV, minN, min_comm]

theorem minN_leftcomm {x y : Value} (hx : x.isNumeric) (hy : y.isNumeric) (z : Value) :
    minN (minN z x) y = minN (minN z y) x := by
  cases z <;> cases x <;> cases y <;>
    simp_all [Value.isNumeric, Value.minV, minN, min_comm, min_assoc, min_left_comm]

theorem maxV_eq_maxN {a b : Value} (ha : a.isNumeric) (hb : b.isNumeric) :
    Value.maxV a b = some (maxN a b) := by
  cases a <;> cases b <;> simp_all [Value.isNumeric, Value.maxV, maxN]

theorem maxN_numeric {a b : Value} (ha : a.isNumeric) (hb : b.isNumeric) :
    (maxN a b).isNumeric := by
  cases a <;> cases b <;> simp_all [Value.isNumeric, Value.maxV, maxN]

theorem maxN_comm {x y : Value} (hx : x.isNumeric) (hy : y.isNumeric) :
    maxN x y = maxN y x := by
  cases x <;> cases y <;> simp_all [Value.isNumeric, Value.maxV, maxN, max_comm]

theorem maxN_leftcomm {x y : Value} (hx : x.isNumeric) (hy : y.isNumeric) (z : Value) :
    maxN (maxN z x) y = maxN (maxN z y) x := by
  cases z <;> cases x <;> cases y <;>
    simp_all [Value.isNumeric, Value.maxV, maxN, max_comm, max_assoc, max_left_comm]

theorem foldlM_minV_eq {xs : List Value} :
    ∀ {x : Value}, x.isNumeric → (∀ v ∈ xs, v.isNumeric) →
      xs.foldlM Value.minV x = some (xs.foldl minN x) := by
  induction xs with
  | nil => intro x _ _; rfl
  | cons y ys ih =>
    intro x hx hxs
    have hy : y.isNumeric := hxs y (by simp)
    rw [List.foldlM_cons, minV_eq_minN hx hy]
    show ys.foldlM Value.minV (minN x y) = _
    rw [ih (minN_numeric hx hy) (fun v hv => hxs v (by simp [hv])), List.foldl_cons]

theorem foldlM_maxV_eq {xs : List Value} :
    ∀ {x : Value}, x.isNumeric → (∀ v ∈ xs, v.isNumeric) →
      xs.foldlM Value.maxV x = some (xs.foldl maxN x) := by
  induction xs with
  | nil => intro x _ _; rfl
  | cons y ys ih =>
    intro x hx hxs
    have hy : y.isNumeric := hxs y (by simp)
    rw [List.foldlM_cons, maxV_eq_maxN hx hy]
    show ys.foldlM Value.maxV (maxN x y) = _
    rw [ih (maxN_numeric hx hy) (fun v hv => hxs v (by simp [hv])), List.foldl_cons]

theorem seriesMin_eq_optFold {l : List Value} (h : ∀ v ∈ l, v.isNumOrNull) :
    seriesMin l =
      some (((l.filter Value.notNull).foldl (optFold minN) none).getD Value.nan) := by
  unfold seriesMin
  cases hf : l.filter Value.notNull with
  | nil => rfl
  | cons x xs =>
    have hmem : ∀ v ∈ x :: xs, v.isNumeric := by
      intro v hv
      exact numOrNull_filter_numeric h v (hf ▸ hv)
    show xs.foldlM Value.minV x = _
    rw [List.foldl_cons, foldlM_minV_eq (hmem x (by simp)) (fun v hv => hmem v (by simp [hv]))]
    show _ = some ((xs.foldl (optFold minN) (some x)).getD Value.nan)
    rw [foldl_optFold_some]
    rfl

theorem seriesMax_eq_optFold {l : List Value} (h : ∀ v ∈ l, v.isNumOrNull) :
    seriesMax l =
      some (((l.filter Value.notNull).foldl (optFold maxN) none).getD Value.nan) := by
  unfold seriesMax
  cases hf : l.filter Value.notNull with
  | nil => rfl
  | cons x xs =>
    have hmem : ∀ v ∈ x :: xs, v.isNumeric := by
      intro v hv
      exact numOrNull_filter_numeric h v (hf ▸ hv)
    show xs.foldlM Value.maxV x = _
    rw [List.foldl_cons, foldlM_maxV_eq (hmem x (by simp)) (fun v hv => hmem v (by simp [hv]))]
    show _ = some ((xs.foldl (optFold maxN) (some x)).getD Value.nan)
    rw [foldl_optFold_some]
    rfl

theorem seriesMin_perm {l1 l2 : List Value} (hp : l1.Perm l2)
    (h1 : ∀ v ∈ l1, v.isNumOrNull) : seriesMin l1 = seriesMin l2 := by
  have h2 : ∀ v ∈ l2, v.isNumOrNull := fun v hv => h1 v (hp.mem_iff.mpr hv)
  rw [seriesMin_eq_optFold h1, seriesMin_eq_optFold h2]
  have hpf := hp.filter Value.notNull
  have hcomm : ∀ x ∈ l1.filter Value.notNull, ∀ y ∈ l1.filter Value.notNull,
      ∀ z : Option Value, optFold minN (optFold minN z x) y = optFold minN (optFold minN z y) x := by
    intro x hx y hy z
    have hxn := numOrNull_filter_numeric h1 x hx
    have hyn := numOrNull_filter_numeric h1 y hy
    cases z with
    | none => show some (minN x y) = some (minN y x); rw [minN_comm hxn hyn]
    | some m => show some (minN (minN m x) y) = some (minN (minN m y) x); rw [minN_leftcomm hxn hyn]
  rw [hpf.foldl_eq' hcomm none]

theorem seriesMax_perm {l1 l2 : List Value} (hp : l1.Perm l2)
    (h1 : ∀ v ∈ l1, v.isNumOrNull) : seriesMax l1 = seriesMax l2 := by
  have h2 : ∀ v ∈ l2, v.isNumOrNull := fun v hv => h1 v (hp.mem_iff.mpr hv)
  rw [seriesMax_eq_optFold h1, seriesMax_eq_optFold h2]
  have hpf := hp.filter Value.notNull
  have hcomm : ∀ x ∈ l1.filter Value.notNull, ∀ y ∈ l1.filter Value.notNull,
      ∀ z : Option Value, optFold maxN (optFold maxN z x) y = optFold maxN (optFold maxN z y) x := by
    intro x hx y hy z
    have hxn := numOrNull_filter_numeric h1 x hx
    have hyn := numOrNull_filter_numeric h1 y hy
    cases z with
    | none => show some (maxN x y) = some (maxN y x); rw [maxN_comm hxn hyn]
    | some m => show some (maxN (maxN m x) y) = some (maxN (maxN m y) x); rw [maxN_leftcomm hxn hyn]
  rw [hpf.foldl_eq' hcomm none]

theorem seriesCount_perm {l1 l2 : List Value} (hp : l1.Perm l2) :
    seriesCount l1 = seriesCount l2 := by
  unfold seriesCount
  rw [(hp.filter Value.notNull).length_eq]

theorem seriesMean_perm {l1 l2 : List Value} (hp : l1.Perm l2)
    (h1 : ∀ v ∈ l1, v.isNumOrNull) : seriesMean l1 = seriesMean l2 := by
  have hpf := hp.filter Value.notNull
  have hlen := hpf.length_eq
  have hsum := seriesSum_perm hp h1
  by_cases he : l1.filter Value.notNull = []
  · have he2 : l2.filter Value.notNull = [] := by
      rw [he] at hlen
      exact List.length_eq_zero.mp hlen.symm
    simp only [seriesMean, he, he2]
    rfl
  · have he2 : l2.filter Value.notNull ≠ [] := by
      intro hx
      rw [hx] at hlen
      exact he (List.length_eq_zero.mp hlen)
    obtain ⟨x1, xs1, hx1⟩ := List.exists_cons_of_ne_nil he
    obtain ⟨x2, xs2, hx2⟩ := List.exists_cons_of_ne_nil he2
    simp only [seriesMean]
    rw [hsum, show (l1.filter Value.notNull).length = (l2.filter Value.notNull).length from hlen,
      hx1, hx2]
    simp only [List.isEmpty_cons, Bool.false_eq_true, if_false]

theorem seriesStd_perm {l1 l2 : List Value} (hp : l1.Perm l2) :
    seriesStd l1 = seriesStd l2 := by
  have hpf := hp.filter Value.notNull
  have hq := hpf.filterMap Value.toRat
  have h1 : (l1.filter Value.notNull).all Value.isNumeric =
      (l2.filter Value.notNull).all Value.isNumeric := by
    apply Bool.coe_iff_coe.mp
    simp only [List.all_eq_true]
    constructor <;> intro h v hv
    · exact h v (hpf.mem_iff.mpr hv)
    · exact h v (hpf.mem_iff.mp hv)
  have h2 := hpf.length_eq
  have h3 : (l1.filter Value.notNull).all Value.isFin =
      (l2.filter Value.notNull).all Value.isFin := by
    apply Bool.coe_iff_coe.mp
    simp only [List.all_eq_true]
    constructor <;> intro h v hv
    · exact h v (hpf.mem_iff.mpr hv)
    · exact h v (hpf.mem_iff.mp hv)
  have h4 := hq.length_eq
  have h5 := hq.sum_eq
  have h6 := (hq.map (fun q => q * q)).sum_eq
  simp only [seriesStd]
  rw [h1, h2, h3, h4, h5, h6]

theorem aggApply_perm (f : String) {l1 l2 : List Value} (hp : l1.Perm l2)
    (h1 : ∀ v ∈ l1, v.isNumOrNull) : aggApply f l1 = aggApply f l2 := by
  unfold aggApply
  split_ifs <;>
    first
      | rfl
      | exact seriesSum_perm hp h1
      | exact seriesMean_perm hp h1
      | exact seriesMin_perm hp h1
      | exact seriesMax_perm hp h1
      | exact seriesCount_perm hp
      | exact seriesStd_perm hp

theorem getCol_none_perm {t1 t2 : Table} {name : String} (hhdr : t1.header = t2.header)
    (h : t1.getCol name = none) : t2.getCol name = none := by
  rw [Table.getCol_none_iff] at h ⊢
  rw [← hhdr]
  exact h

theorem getCol_perm {t1 t2 : Table} (hhdr : t1.header = t2.header) (hp : t1.rows.Perm t2.rows)
    (name : String) {l1 : List Value} (h1 : t1.getCol name = some l1) :
    ∃ l2, t2.getCol name = some l2 ∧ l1.Perm l2 := by
  unfold Table.getCol Table.colIdx at h1 ⊢
  rw [← hhdr]
  cases hc : List.findIdx? (fun x => decide (x = name)) t1.header with
  | none => rw [hc] at h1; simp at h1
  | some i =>
    rw [hc] at h1
    simp only [Option.map_some', Option.some.injEq] at h1
    simp only [Option.map_some']
    refine ⟨t2.rows.map (fun r => r.getD i Value.nan), rfl, ?_⟩
    rw [← h1]
    exact hp.map _

/-- Folds with pointwise equal step functions are equal. -/
theorem foldlM_congr_mem {α β : Type} {f g : β → α → Except String β} :
    ∀ {l : List α}, (∀ a ∈ l, ∀ b, f b a = g b a) →
      ∀ b, List.foldlM f b l = List.foldlM g b l := by
  intro l
  induction l with
  | nil => intro _ b; rfl
  | cons x xs ih =>
    intro h b
    rw [List.foldlM_cons, List.foldlM_cons, h x (by simp) b]
    cases hg : g b x with
    | error e => rfl
    | ok b' =>
      show List.foldlM f b' xs = List.foldlM g b' xs
      exact ih (fun a ha b => h a (by simp [ha]) b) b'

theorem aggStep_congr {t1 t2 : Table} (hhdr : t1.header = t2.header) (hp : t1.rows.Perm t2.rows)
    {c : String} (hnum : ∀ l, t1.getCol c = some l → ∀ v ∈ l, v.isNumOrNull)
    (r : Record) (f : String) : aggStep t1 r c f = aggStep t2 r c f := by
  unfold aggStep
  by_cases hk : aggKnown f
  · rw [if_pos hk, if_pos hk]
    cases hc1 : t1.getCol c with
    | none => rw [getCol_none_perm hhdr hc1]
    | some l1 =>
      obtain ⟨l2, hc2, hpl⟩ := getCol_perm hhdr hp c hc1
      rw [hc2]
      show (match aggApply f l1 with
            | none => (Except.error "Aggregation failed" : Except String Record)
            | some v => .ok (insertR r (c ++ "_" ++ f) v)) =
          (match aggApply f l2 with
            | none => .error "Aggregation failed"
            | some v => .ok (insertR r (c ++ "_" ++ f) v))
      rw [aggApply_perm f hpl (hnum l1 hc1)]
  · rw [if_neg hk, if_neg hk]

/-- C8 (amended): aggregation is order independent on numeric data —
for two tables with the same header whose rows are permutations of one
another and whose aggregated columns hold only numeric-or-null cells,
`aggregations` returns identical results.  (The restriction to numeric
cells is forced: `sum` over a text column concatenates the strings in
row order, see `aggregations_not_order_independent`.) -/
theorem aggregations_perm_invariant (t1 t2 : Table) (columns agg_funcs : List String)
    (hhdr : t1.header = t2.header) (hp : t1.rows.Perm t2.rows)
    (hnum : ∀ c ∈ columns, ∀ l, t1.getCol c = some l → ∀ v ∈ l, v.isNumOrNull) :
    aggregations t1 columns agg_funcs = aggregations t2 columns agg_funcs := by
  unfold aggregations
  apply foldlM_congr_mem
  intro c hc r
  apply foldlM_congr_mem
  intro f _ r'
  exact aggStep_congr hhdr hp (hnum c hc) r' f

instance {ε α : Type} [DecidableEq ε] [DecidableEq α] : DecidableEq (Except ε α) := fun a b =>
  match a, b with
  | .error x, .error y =>
    if h : x = y then .isTrue (by rw [h]) else .isFalse (fun hc => h (by injection hc))
  | .ok x, .ok y =>
    if h : x = y then .isTrue (by rw [h]) else .isFalse (fun hc => h (by injection hc))
  | .error _, .ok _ => .isFalse (fun hc => by injection hc)
  | .ok _, .error _ => .isFalse (fun hc => by injection hc)

/-- Text dataframes on which row order is visible to `sum`. -/
def strTableA : Table := { header := ["c"], rows := [[Value.str "a"], [Value.str "b"]] }

def strTableB : Table := { header := ["c"], rows := [[Value.str "b"], [Value.str "a"]] }

/-- C8 (counterexample): the claim fails as stated — `strTableB` is a
row permutation of `strTableA` (same header), yet `aggregations` with
`sum` over the text column returns "ab" for one and "ba" for the
other, because a pandas object-column `sum` concatenates in row
order. -/
theorem aggregations_not_order_independent :
    strTableB.rows.Perm strTableA.rows ∧ strTableB.header = strTableA.header ∧
      aggregations strTableA ["c"] ["sum"] ≠ aggregations strTableB ["c"] ["sum"] := by
  refine ⟨List.Perm.swap _ _ _, rfl, ?_⟩
  decide

/-- Numeric permuted dataframes witnessing the amended C8. -/
def numTableA : Table := { header := ["v"], rows := [[Value.num 1], [Value.num 2]] }

def numTableB : Table := { header := ["v"], rows := [[Value.num 2], [Value.num 1]] }

theorem aggregations_perm_invariant_witness :
    aggregations numTableA ["v"] ["sum", "mean", "min", "max", "count", "std"] =
      aggregations numTableB ["v"] ["sum", "mean", "min", "max", "count", "std"] :=
  aggregations_perm_invariant numTableA numTableB
    ["v"] ["sum", "mean", "min", "max", "count", "std"] rfl
    (List.Perm.swap _ _ _)
    (by
      intro c hc l hl v hv
      simp only [List.mem_singleton] at hc
      subst hc
      have hcol : numTableA.getCol "v" = some [Value.num 1, Value.num 2] := by decide
      rw [hcol] at hl
      injection hl with hl'
      subst hl'
      simp only [List.mem_cons, List.mem_singleton] at hv
      rcases hv with h | h | h
      · subst h; decide
      · subst h; decide
      · simp at h)

/-! ### `filter_data` and the `df.query` predicate language -/

inductive CmpOp : Type where
  | ceq | cne | clt | cle | cgt | cge
deriving DecidableEq, Repr

/-- Atomic operands of a `df.query` comparison: a column reference or a
literal. -/
inductive QExpr : Type where
  | col (name : String)
  | lit (v : Value)
deriving DecidableEq, Repr

/-- Boolean predicate expressions of the `df.query` mini-language:
comparisons combined with and/or/not. -/
inductive QCond : Type where
  | cmp (op : CmpOp) (a b : QExpr)
  | qand (p q : QCond)
  | qor (p q : QCond)
  | qnot (p : QCond)
deriving DecidableEq, Repr

/-- Python `==` semantics per cell: NaN compares unequal to everything
(itself included), values of different kinds compare unequal rather
than raising. -/
def eqValues : Value → Value → Option Bool
  | Value.nan, _ => some false
  | _, Value.nan => some false
  | Value.num a, Value.num b => some (decide (a = b))
  | Value.inf, Value.inf => some true
  | Value.negInf, Value.negInf => some true
  | Value.str a, Value.str b => some (decide (a = b))
  | Value.date y m d, Value.date y' m' d' => some (decide (y = y' ∧ m = m' ∧ d = d'))
  | _, _ => some false

/-- Python `<` semantics per cell: IEEE comparisons with NaN are false,
the numeric order extends with the infinities, text compares
lexicographically; ordering text against numbers raises (`none`). -/
def ltValues : Value → Value → Option Bool
  | Value.nan, Value.num _ => some false
  | Value.nan, Value.inf => some false
  | Value.nan, Value.negInf => some false
  | Value.nan, Value.nan => some false
  | Value.num _, Value.nan => some false
  | Value.inf, Value.nan => some false
  | Value.negInf, Value.nan => some false
  | Value.num a, Value.num b => some (decide (a < b))
  | Value.num _, Value.inf => some true
  | Value.num _, Value.negInf => some false
  | Value.inf, Value.num _ => some false
  | Value.inf, Value.inf => some false
  | Value.inf, Value.negInf => some false
  | Value.negInf, Value.num _ => some true
  | Value.negInf, Value.inf => some true
  | Value.negInf, Value.negInf => some false
  | Value.str a, Value.str b => some (decide (a < b))
  | _, _ => none

/-- Python `<=`, with the same conventions as `ltValues`. -/
def leValues : Value → Value → Option Bool
  | Value.nan, Value.num _ => some false
  | Value.nan, Value.inf => some false
  | Value.nan, Value.negInf => some false
  | Value.nan, Value.nan => some false
  | Value.num _, Value.nan => some false
  | Value.inf, Value.nan => some false
  | Value.negInf, Value.nan => some false
  | Value.num a, Value.num b => some (decide (a ≤ b))
  | Value.num _, Value.inf => some true
  | Value.num _, Value.negInf => some false
  | Value.inf, Value.num _ => some false
  | Value.inf, Value.inf => some true
  | Value.inf, Value.negInf => some false
  | Value.negInf, Value.num _ => some true
  | Value.negInf, Value.inf => some true
  | Value.negInf, Value.negInf => some true
  | Value.str a, Value.str b => some (decide (a ≤ b))
  | _, _ => none

def cmpValues : CmpOp → Value → Value → Option Bool
  | .ceq, a, b => eqValues a b
  | .cne, a, b => (eqValues a b).map (fun x => !x)
  | .clt, a, b => ltValues a b
  | .cle, a, b => leValues a b
  | .cgt, a, b => ltValues b a
  | .cge, a, b => leValues b a

def evalQE (hdr : List String) (row : List Value) : QExpr → Option Value
  | .col name =>
    match hdr.findIdx? (· = name) with
    | some i => some (row.getD i Value.nan)
    | none => none
  | .lit v => some v

/-- Row-wise evaluation of a predicate; `none` models the exception a
malformed predicate raises. -/
def evalQC (hdr : List String) (row : List Value) : QCond → Option Bool
  | .cmp op a b => do
    let va ← evalQE hdr row a
    let vb ← evalQE hdr row b
    cmpValues op va vb
  | .qand p q => do
    let bp ← evalQC hdr row p
    let bq ← evalQC hdr row q
    pure (bp && bq)
  | .qor p q => do
    let bp ← evalQC hdr row p
    let bq ← evalQC hdr row q
    pure (bp || bq)
  | .qnot p => (evalQC hdr row p).map (fun b => !b)

def filterRows (hdr : List String) (cond : QCond) : List (List Value) →
    Option (List (List Value))
  | [] => some []
  | r :: rs => do
    let b ← evalQC hdr r cond
    let rest ← filterRows hdr cond rs
    pure (if b then r :: rest else rest)

/-- `DataOperationsEngine.filter_data` (lines 191–197): `df.query(condition)`
returns, preserving order, the rows on which the predicate evaluates
true; a failing evaluation is the caught exception re-raised as
`ValueError`. -/
def filter_data (df : Table) (condition : QCond) : Except String Table :=
  match filterRows df.header condition df.rows with
  | some rs => .ok { header := df.header, rows := rs }
  | none => .error "Filter operation failed"

theorem filterRows_sound {hdr : List String} {cond : QCond} :
    ∀ {rows rs : List (List Value)}, filterRows hdr cond rows = some rs →
      ∀ r ∈ rs, evalQC hdr r cond = some true := by
  intro rows
  induction rows with
  | nil => intro rs h r hr; cases h; simp at hr
  | cons x xs ih =>
    intro rs h r hr
    unfold filterRows at h
    cases hb : evalQC hdr x cond with
    | none => rw [hb] at h; simp at h
    | some b =>
      rw [hb] at h
      cases hrest : filterRows hdr cond xs with
      | none => rw [hrest] at h; simp at h
      | some rest =>
        rw [hrest] at h
        cases b with
        | true =>
          simp at h
          subst h
          rcases List.mem_cons.mp hr with he | hmem
          · subst he; exact hb
          · exact ih hrest r hmem
        | false =>
          simp at h
          subst h
          exact ih hrest r hr

theorem filterRows_fixed {hdr : List String} {cond : QCond} :
    ∀ {rs : List (List Value)}, (∀ r ∈ rs, evalQC hdr r cond = some true) →
      filterRows hdr cond rs = some rs := by
  intro rs
  induction rs with
  | nil => intro _; rfl
  | cons x xs ih =>
    intro h
    unfold filterRows
    rw [h x (by simp), ih (fun r hr => h r (by simp [hr]))]
    rfl

/-- C7: filtering is idempotent — whenever `filter_data` succeeds,
filtering its result again with the same predicate returns that result
unchanged (same rows, same order). -/
theorem filter_data_idempotent (df df' : Table) (condition : QCond)
    (h : filter_data df condition = .ok df') :
    filter_data df' condition = .ok df' := by
  unfold filter_data at h
  cases hf : filterRows df.header condition df.rows with
  | none => rw [hf] at h; simp at h
  | some rs =>
    rw [hf] at h
    injection h with h'
    subst h'
    have hfix : filterRows df.header condition rs = some rs :=
      filterRows_fixed (filterRows_sound hf)
    simp only [filter_data]
    rw [hfix]

/-- A table and predicate witnessing filter idempotence: keep rows with
`a > 2`. -/
def sampleFilterTable : Table :=
  { header := ["a"], rows := [[Value.num 1], [Value.num 5]] }

def sampleFilterCond : QCond := .cmp .cgt (.col "a") (.lit (Value.num 2))

def sampleFilterOut : Table := { header := ["a"], rows := [[Value.num 5]] }

theorem filter_data_idempotent_witness :
    filter_data sampleFilterOut sampleFilterCond = .ok sampleFilterOut :=
  filter_data_idempotent sampleFilterTable sampleFilterOut sampleFilterCond (by decide)

/-! ### The `/upload` endpoint's status-code logic -/

/-- A Python exception as the upload handler raises them: a FastAPI
`HTTPException` carrying an HTTP status, or any other exception (e.g.
an `OSError` from the file write). -/
inductive PyExc : Type where
  | http (status : Nat) (detail : String)
  | other (msg : String)
deriving DecidableEq, Repr

/-- Outcomes of the I/O steps of `/upload`, abstracted: whether writing
the uploaded bytes succeeds, and the results of
`ExcelDataHandler.get_sheet_names` and `ExcelDataHandler.read_excel`
(both of which raise `HTTPException(400, "Failed to read Excel
file: ...")` on failure). -/
structure UploadEnv : Type where
  writeOk : Bool
  sheets : Except String (List String)
  firstSheet : Except String Table
deriving DecidableEq, Repr

/-- Python's `str.endswith`, on the character sequences. -/
def strEndsWith (s suffix : String) : Bool :=
  suffix.data.isSuffixOf s.data

/-- Extension whitelist of `/upload` (line 263):
`file.filename.endswith(('.xlsx', '.xls'))`. -/
def validExt (filename : String) : Bool :=
  strEndsWith filename ".xlsx" || strEndsWith filename ".xls"

/-- The body of the `try` block of `upload_file` (lines 261–286): it
raises `HTTPException(400)` on a bad extension, a plain `OSError` on a
failed write, `HTTPException(400)` when the stored workbook cannot be
read, and otherwise produces the success payload. -/
def upload_try (filename : String) (env : UploadEnv) : Except PyExc (List String × Table) :=
  if ¬validExt filename then
    .error (.http 400 "Only Excel files (.xlsx, .xls) are supported")
  else if ¬env.writeOk then
    .error (.other "write failed")
  else
    match env.sheets with
    | .error e => .error (.http 400 ("Failed to read Excel file: " ++ e))
    | .ok sheets =>
      match env.firstSheet with
      | .error e => .error (.http 400 ("Failed to read Excel file: " ++ e))
      | .ok df => .ok (sheets, df)

/-- Python's `str(e)` on the exceptions above (`str` of a FastAPI
`HTTPException` is `"<status>: <detail>"`). -/
def pyExcStr : PyExc → String
  | .http s d => toString s ++ ": " ++ d
  | .other m => m

/-- `upload_file` (lines 250–290): the final `except Exception as e`
catches every exception raised in the `try` block — the
`HTTPException(400)`s included, since `HTTPException` subclasses
`Exception` — and re-raises `HTTPException(500, str(e))`.  The
handler's HTTP outcome is therefore 200 on success and 500 on every
failure path. -/
def upload_file (filename : String) (env : UploadEnv) : Nat × String :=
  match upload_try filename env with
  | .ok _ => (200, "success")
  | .error e => (500, pyExcStr e)

/-- C3 (code bug): uploading a file whose name does not end in
`.xlsx`/`.xls` is answered with HTTP status 500, not the specified 400:
the `try` body does raise `HTTPException(400, "Only Excel files
(.xlsx, .xls) are supported")` for the bad extension, but the blanket
`except Exception` re-raises it as 500. -/
theorem upload_bad_extension_gives_500 :
    (upload_file "data.csv"
        { writeOk := true, sheets := .ok ["Sheet1"], firstSheet := .ok sampleMathTable }).1 =
      500 ∧
    upload_try "data.csv"
        { writeOk := true, sheets := .ok ["Sheet1"], firstSheet := .ok sampleMathTable } =
      .error (.http 400 "Only Excel files (.xlsx, .xls) are supported") ∧
    (500 : Nat) ≠ 400 := by
  refine ⟨by decide, by decide, by decide⟩

/-! ### `join_dataframes` (`pd.merge`) -/

theorem sum_map_ite_eq_countP {α : Type} (p : α → Bool) (l : List α) :
    (l.map (fun a => if p a then 1 else 0)).sum = l.countP p := by
  induction l with
  | nil => rfl
  | cons x xs ih =>
    simp only [List.map_cons, List.sum_cons, List.countP_cons, ih]
    by_cases hp : p x <;> simp [hp] <;> omega

theorem sum_map_add {α : Type} (f g : α → Nat) (l : List α) :
    (l.map (fun a => f a + g a)).sum = (l.map f).sum + (l.map g).sum := by
  induction l with
  | nil => rfl
  | cons x xs ih =>
    simp only [List.map_cons, List.sum_cons, ih]
    omega

/-- Double counting: summing match counts over the left rows equals
summing them over the right rows. -/
theorem countP_exchange {α β : Type} (A : List α) (B : List β) (rel : α → β → Bool) :
    (A.map (fun a => (B.filter (rel a)).length)).sum =
      (B.map (fun b => (A.filter (fun a => rel a b)).length)).sum := by
  induction A with
  | nil => simp
  | cons a A' ih =>
    simp only [List.map_cons, List.sum_cons, ih]
    have hmapeq : B.map (fun b => ((a :: A').filter (fun a' => rel a' b)).length) =
        B.map (fun b => (if rel a b then 1 else 0) + (A'.filter (fun a' => rel a' b)).length) := by
      apply List.map_congr_left
      intro b _
      rw [List.filter_cons]
      by_cases h : rel a b <;> simp [h] <;> omega
    rw [hmapeq, sum_map_add, sum_map_ite_eq_countP, List.countP_eq_length_filter]

theorem length_le_sum_add_filter {α : Type} (g : α → Nat) (l : List α) :
    l.length ≤ (l.map g).sum + (l.filter (fun a => decide (g a = 0))).length := by
  induction l with
  | nil => simp
  | cons x xs ih =>
    simp only [List.map_cons, List.sum_cons, List.filter_cons, List.length_cons]
    by_cases h : g x = 0
    · simp only [h, decide_eq_true_eq]
      simp
      omega
    · simp [h]
      omega

/-- The key cells of a list of rows, at column position `j`. -/
def keyList (rows : List (List Value)) (j : Nat) : List Value :=
  rows.map (fun r => r.getD j Value.nan)

/-- The rows whose key cell at position `j` equals `k` (pandas merge
matches keys by equality, NaN keys included). -/
def matchRows (rows : List (List Value)) (j : Nat) (k : Value) : List (List Value) :=
  rows.filter (fun r => decide (r.getD j Value.nan = k))

/-- Column names of a merge result: shared non-key names receive the
pandas suffixes `_x`/`_y`. -/
def mergeHeader (h1 h2 : List String) (onCol : String) : List String :=
  h1.map (fun c => if c ≠ onCol ∧ c ∈ h2 then c ++ "_x" else c) ++
    (h2.filter (fun c => decide (c ≠ onCol))).map (fun c => if c ∈ h1 then c ++ "_y" else c)

/-- The matched joined rows: for each left row, the cross product with
its matching right rows (right key cell dropped). -/
def innerJoinRows (df1 df2 : Table) (i1 i2 : Nat) : List (List Value) :=
  df1.rows.flatMap (fun r1 =>
    (matchRows df2.rows i2 (r1.getD i1 Value.nan)).map (fun r2 => r1 ++ r2.eraseIdx i2))

/-- Left-join rows: a left row without matches survives once, padded
with NaN in the right columns. -/
def leftJoinRows (df1 df2 : Table) (i1 i2 : Nat) : List (List Value) :=
  df1.rows.flatMap (fun r1 =>
    if (matchRows df2.rows i2 (r1.getD i1 Value.nan)).isEmpty then
      [r1 ++ List.replicate (df2.header.length - 1) Value.nan]
    else (matchRows df2.rows i2 (r1.getD i1 Value.nan)).map (fun r2 => r1 ++ r2.eraseIdx i2))

/-- NaN padding for an unmatched right row: the key lands in the key
column's slot, every other left column is NaN. -/
def padLeftRow (df1 : Table) (onCol : String) (i2 : Nat) (r2 : List Value) : List Value :=
  df1.header.map (fun c => if c = onCol then r2.getD i2 Value.nan else Value.nan)

/-- Right-join rows, mirror of `leftJoinRows`. -/
def rightJoinRows (df1 df2 : Table) (onCol : String) (i1 i2 : Nat) : List (List Value) :=
  df2.rows.flatMap (fun r2 =>
    if (matchRows df1.rows i1 (r2.getD i2 Value.nan)).isEmpty then
      [padLeftRow df1 onCol i2 r2 ++ r2.eraseIdx i2]
    else (matchRows df1.rows i1 (r2.getD i2 Value.nan)).map (fun r1 => r1 ++ r2.eraseIdx i2))

/-- The unmatched right rows, NaN padded on the left. -/
def rightOnlyRows (df1 df2 : Table) (onCol : String) (i1 i2 : Nat) : List (List Value) :=
  (df2.rows.filter (fun r2 => (matchRows df1.rows i1 (r2.getD i2 Value.nan)).isEmpty)).map
    (fun r2 => padLeftRow df1 onCol i2 r2 ++ r2.eraseIdx i2)

/-- `pd.merge(df1, df2, on, how)` (`DataOperationsEngine.join_dataframes`,
lines 151–158; `onCol` is the Python `on` parameter, whose name is
reserved in Lean).  A joined row is the left row followed by the right row
with its key cell removed; duplicate keys produce the cross product of
matching rows.  A left row without a match is NaN-padded on the right
(left/outer joins) and symmetrically for right rows; the outer join is
the left join plus the unmatched right rows.  (pandas presents
outer-join rows sorted by key; the model keeps them in input order —
the multiset of rows, in particular the row count the claims are
about, is the same.)  A missing key column or an unknown `how` raises,
re-raised as `ValueError`. -/
def join_dataframes (df1 df2 : Table) (onCol : String) (how : String) : Except String Table :=
  match df1.colIdx onCol, df2.colIdx onCol with
  | some i1, some i2 =>
    if how = "inner" then
      .ok { header := mergeHeader df1.header df2.header onCol,
            rows := innerJoinRows df1 df2 i1 i2 }
    else if how = "left" then
      .ok { header := mergeHeader df1.header df2.header onCol,
            rows := leftJoinRows df1 df2 i1 i2 }
    else if how = "right" then
      .ok { header := mergeHeader df1.header df2.header onCol,
            rows := rightJoinRows df1 df2 onCol i1 i2 }
    else if how = "outer" then
      .ok { header := mergeHeader df1.header df2.header onCol,
            rows := leftJoinRows df1 df2 i1 i2 ++ rightOnlyRows df1 df2 onCol i1 i2 }
    else .error "Join operation failed"
  | _, _ => .error "Join operation failed"

theorem sum_map_one {α : Type} (l : List α) : (l.map (fun _ => (1 : Nat))).sum = l.length := by
  induction l <;> simp_all <;> omega

theorem isEmpty_eq_decide_length {α : Type} (l : List α) :
    l.isEmpty = decide (l.length = 0) := by
  cases l <;> rfl

theorem matchRows_length_count (rows : List (List Value)) (j : Nat) (k : Value) :
    (matchRows rows j k).length = (keyList rows j).count k := by
  unfold matchRows keyList
  rw [← List.countP_eq_length_filter, List.count_eq_countP, List.countP_map]
  rfl

theorem matchRows_swap_eq (rows : List (List Value)) (i1 i2 : Nat) (r2 : List Value) :
    rows.filter (fun r1 => decide (r2.getD i2 Value.nan = r1.getD i1 Value.nan)) =
      matchRows rows i1 (r2.getD i2 Value.nan) := by
  unfold matchRows
  apply List.filter_congr
  intro r1 _
  simp [eq_comm]

theorem innerJoinRows_length (df1 df2 : Table) (i1 i2 : Nat) :
    (innerJoinRows df1 df2 i1 i2).length =
      (df1.rows.map (fun r1 => (matchRows df2.rows i2 (r1.getD i1 Value.nan)).length)).sum := by
  unfold innerJoinRows
  rw [List.length_flatMap]
  apply congrArg
  apply List.map_congr_left
  intro r1 _
  simp [Function.comp, List.length_map]

theorem leftJoinRows_length (df1 df2 : Table) (i1 i2 : Nat) :
    (leftJoinRows df1 df2 i1 i2).length =
      (df1.rows.map (fun r1 =>
        if (matchRows df2.rows i2 (r1.getD i1 Value.nan)).isEmpty then 1
        else (matchRows df2.rows i2 (r1.getD i1 Value.nan)).length)).sum := by
  unfold leftJoinRows
  rw [List.length_flatMap]
  apply congrArg
  apply List.map_congr_left
  intro r1 _
  show (if (matchRows df2.rows i2 (r1.getD i1 Value.nan)).isEmpty then
      [r1 ++ List.replicate (df2.header.length - 1) Value.nan]
    else (matchRows df2.rows i2 (r1.getD i1 Value.nan)).map
      (fun r2 => r1 ++ r2.eraseIdx i2)).length =
    if (matchRows df2.rows i2 (r1.getD i1 Value.nan)).isEmpty then 1
    else (matchRows df2.rows i2 (r1.getD i1 Value.nan)).length
  cases he : (matchRows df2.rows i2 (r1.getD i1 Value.nan)).isEmpty <;> simp

/-- C6: join cardinalities.  With the key column present in both
tables: for an inner join with keys unique on each side, the result's
row count is the number of key values present in both tables; for an
outer join, the row count is at least each input's row count, hence at
least their maximum. -/
theorem join_cardinality (df1 df2 : Table) (onCol : String) (i1 i2 : Nat)
    (h1 : df1.colIdx onCol = some i1) (h2 : df2.colIdx onCol = some i2)
    (hnd1 : (keyList df1.rows i1).Nodup) (hnd2 : (keyList df2.rows i2).Nodup) :
    (∃ t, join_dataframes df1 df2 onCol "inner" = .ok t ∧
      t.nrows = ((keyList df1.rows i1).filter
        (fun k => decide (k ∈ keyList df2.rows i2))).length) ∧
    (∃ t, join_dataframes df1 df2 onCol "outer" = .ok t ∧
      df1.nrows ≤ t.nrows ∧ df2.nrows ≤ t.nrows) := by
  have hinner : join_dataframes df1 df2 onCol "inner" = .ok
      { header := mergeHeader df1.header df2.header onCol,
        rows := innerJoinRows df1 df2 i1 i2 } := by
    unfold join_dataframes
    rw [h1, h2]
    rfl
  have houter : join_dataframes df1 df2 onCol "outer" = .ok
      { header := mergeHeader df1.header df2.header onCol,
        rows := leftJoinRows df1 df2 i1 i2 ++ rightOnlyRows df1 df2 onCol i1 i2 } := by
    unfold join_dataframes
    rw [h1, h2]
    rfl
  constructor
  · refine ⟨_, hinner, ?_⟩
    show (innerJoinRows df1 df2 i1 i2).length = _
    rw [innerJoinRows_length]
    have hpt : ∀ r1 ∈ df1.rows,
        (matchRows df2.rows i2 (r1.getD i1 Value.nan)).length =
          if decide ((r1.getD i1 Value.nan) ∈ keyList df2.rows i2) then 1 else 0 := by
      intro r1 _
      rw [matchRows_length_count]
      by_cases hm : (r1.getD i1 Value.nan) ∈ keyList df2.rows i2
      · rw [List.count_eq_one_of_mem hnd2 hm, if_pos (decide_eq_true hm)]
      · rw [List.count_eq_zero_of_not_mem hm,
          if_neg (fun hx => hm (of_decide_eq_true hx))]
    rw [List.map_congr_left hpt, sum_map_ite_eq_countP]
    show df1.rows.countP
        ((fun k => decide (k ∈ keyList df2.rows i2)) ∘ (fun r => r.getD i1 Value.nan)) = _
    rw [← List.countP_map, List.countP_eq_length_filter]
    rfl
  · refine ⟨_, houter, ?_, ?_⟩
    · show df1.nrows ≤ (leftJoinRows df1 df2 i1 i2 ++ rightOnlyRows df1 df2 onCol i1 i2).length
      rw [List.length_append, leftJoinRows_length]
      have hone : (df1.rows.map (fun _ => (1 : Nat))).sum ≤
          (df1.rows.map (fun r1 =>
            if (matchRows df2.rows i2 (r1.getD i1 Value.nan)).isEmpty then 1
            else (matchRows df2.rows i2 (r1.getD i1 Value.nan)).length)).sum := by
        apply List.sum_le_sum
        intro r1 _
        show 1 ≤ if (matchRows df2.rows i2 (r1.getD i1 Value.nan)).isEmpty then 1
          else (matchRows df2.rows i2 (r1.getD i1 Value.nan)).length
        cases he : (matchRows df2.rows i2 (r1.getD i1 Value.nan)).isEmpty with
        | true => simp
        | false =>
          simp only [Bool.false_eq_true, if_false]
          rcases hm : matchRows df2.rows i2 (r1.getD i1 Value.nan) with _ | ⟨x, xs⟩
          · rw [hm] at he; simp at he
          · simp
      rw [sum_map_one] at hone
      show df1.rows.length ≤ _
      omega
    · show df2.nrows ≤ (leftJoinRows df1 df2 i1 i2 ++ rightOnlyRows df1 df2 onCol i1 i2).length
      rw [List.length_append, leftJoinRows_length]
      -- the left join has at least as many rows as the matched pairs,
      -- counted from the right side
      have hge : (df1.rows.map (fun r1 => (matchRows df2.rows i2 (r1.getD i1 Value.nan)).length)).sum ≤
          (df1.rows.map (fun r1 =>
            if (matchRows df2.rows i2 (r1.getD i1 Value.nan)).isEmpty then 1
            else (matchRows df2.rows i2 (r1.getD i1 Value.nan)).length)).sum := by
        apply List.sum_le_sum
        intro r1 _
        show (matchRows df2.rows i2 (r1.getD i1 Value.nan)).length ≤
          if (matchRows df2.rows i2 (r1.getD i1 Value.nan)).isEmpty then 1
          else (matchRows df2.rows i2 (r1.getD i1 Value.nan)).length
        cases he : (matchRows df2.rows i2 (r1.getD i1 Value.nan)).isEmpty with
        | true =>
          have hnil : matchRows df2.rows i2 (r1.getD i1 Value.nan) = [] :=
            List.isEmpty_iff.mp he
          rw [hnil]
          simp
        | false => simp
      have hex : (df1.rows.map (fun r1 =>
            (matchRows df2.rows i2 (r1.getD i1 Value.nan)).length)).sum =
          (df2.rows.map (fun r2 =>
            (matchRows df1.rows i1 (r2.getD i2 Value.nan)).length)).sum := by
        have := countP_exchange df1.rows df2.rows
          (fun r1 r2 => decide (r2.getD i2 Value.nan = r1.getD i1 Value.nan))
        unfold matchRows
        rw [this]
        apply congrArg
        apply List.map_congr_left
        intro r2 _
        rw [matchRows_swap_eq df1.rows i1 i2 r2]
        rfl
      have hbound := length_le_sum_add_filter
        (fun r2 => (matchRows df1.rows i1 (r2.getD i2 Value.nan)).length) df2.rows
      have hro : (rightOnlyRows df1 df2 onCol i1 i2).length =
          (df2.rows.filter (fun r2 =>
            decide ((matchRows df1.rows i1 (r2.getD i2 Value.nan)).length = 0))).length := by
        unfold rightOnlyRows
        rw [List.length_map]
        apply congrArg
        apply List.filter_congr
        intro r2 _
        rw [isEmpty_eq_decide_length]
      rw [hro]
      show df2.rows.length ≤ _
      omega

def joinLeftTable : Table :=
  { header := ["k", "a"], rows := [[Value.num 1, Value.num 10], [Value.num 2, Value.num 20]] }

def joinRightTable : Table :=
  { header := ["k", "b"], rows := [[Value.num 2, Value.num 30], [Value.num 3, Value.num 40]] }

theorem join_cardinality_witness :
    (∃ t, join_dataframes joinLeftTable joinRightTable "k" "inner" = .ok t ∧
      t.nrows = ((keyList joinLeftTable.rows 0).filter
        (fun k => decide (k ∈ keyList joinRightTable.rows 0))).length) ∧
    (∃ t, join_dataframes joinLeftTable joinRightTable "k" "outer" = .ok t ∧
      joinLeftTable.nrows ≤ t.nrows ∧ joinRightTable.nrows ≤ t.nrows) :=
  join_cardinality joinLeftTable joinRightTable "k" 0 0
    (by decide) (by decide) (by decide) (by decide)

/-! ### `date_operations` (`pd.to_datetime` and the `dt` accessors) -/

def isLeap (y : Nat) : Bool := (y % 4 = 0 && y % 100 ≠ 0) || y % 400 = 0

def daysInMonth (y m : Nat) : Nat :=
  if m = 2 then (if isLeap y then 29 else 28)
  else if m = 4 ∨ m = 6 ∨ m = 9 ∨ m = 11 then 30
  else 31

def digitVal (c : Char) : Option Nat :=
  if c.isDigit then some (c.toNat - 48) else none

/-- Parse an ISO `YYYY-MM-DD` string into a calendar date, validating
month and day ranges as `pd.to_datetime` does. -/
def parseISODate (s : String) : Option Value :=
  match s.data with
  | [a, b, c, d, s1, e, f, s2, g, h] =>
    if s1 = '-' ∧ s2 = '-' then do
      let ya ← digitVal a
      let yb ← digitVal b
      let yc ← digitVal c
      let yd ← digitVal d
      let ma ← digitVal e
      let mb ← digitVal f
      let da ← digitVal g
      let db ← digitVal h
      let y := ya * 1000 + yb * 100 + yc * 10 + yd
      let m := ma * 10 + mb
      let dd := da * 10 + db
      if 1 ≤ m ∧ m ≤ 12 ∧ 1 ≤ dd ∧ dd ≤ daysInMonth y m then some (Value.date y m dd)
      else none
    else none
  | _ => none

/-- `pd.to_datetime` on one cell, modelled for the value kinds the
claims exercise: datetime cells pass through unchanged, ISO
`YYYY-MM-DD` text parses to a date, and any other cell is treated as
unparseable (the library parser accepts further formats and numeric
epochs not modelled here; the date claims only exercise datetime cells
and ISO strings). -/
def toDatetime : Value → Option Value
  | .date y m d => some (.date y m d)
  | .str s => parseISODate s
  | _ => none

namespace Value

def isDate : Value → Bool
  | date _ _ _ => true
  | _ => false

/-- `series.dt.year`. -/
def yearOf : Value → Value
  | date y _ _ => num (y : Rat)
  | _ => nan

/-- `series.dt.month`. -/
def monthOf : Value → Value
  | date _ m _ => num (m : Rat)
  | _ => nan

/-- `series.dt.day`. -/
def dayOf : Value → Value
  | date _ _ d => num (d : Rat)
  | _ => nan

end Value

/-- Day of week by Sakamoto's congruence, Sunday = 0 (valid for the
common-era dates a spreadsheet holds). -/
def sakamotoDow (y m d : Nat) : Nat :=
  let t := [0, 3, 2, 5, 0, 3, 5, 1, 4, 6, 2, 4]
  let y' := if m < 3 then y - 1 else y
  (y' + y' / 4 - y' / 100 + y' / 400 + t.getD (m - 1) 0 + d) % 7

/-- `series.dt.dayofweek`: pandas numbers the days with Monday = 0. -/
def Value.dowOf : Value → Value
  | Value.date y m d => Value.num (((sakamotoDow y m d + 6) % 7 : Nat) : Rat)
  | _ => Value.nan

/-- `DataOperationsEngine.date_operations` (lines 178–189): the date
column is overwritten with its `pd.to_datetime` parse, then the four
derived columns `_year`, `_month`, `_day`, `_dayofweek` are assigned
from the `dt` accessors; an unparseable cell fails the whole operation
(re-raised as `ValueError`). -/
def date_operations (df : Table) (date_col : String) : Except String Table :=
  match df.getCol date_col with
  | none => .error "Date operation failed"
  | some c =>
    match c.mapM toDatetime with
    | none => .error "Date operation failed"
    | some ds =>
      let df1 := df.setCol date_col ds
      let df2 := df1.setCol (date_col ++ "_year") (ds.map Value.yearOf)
      let df3 := df2.setCol (date_col ++ "_month") (ds.map Value.monthOf)
      let df4 := df3.setCol (date_col ++ "_day") (ds.map Value.dayOf)
      let df5 := df4.setCol (date_col ++ "_dayofweek") (ds.map Value.dowOf)
      .ok df5

/-- A one-row dataframe whose date column holds an ISO date string, as
a text column loaded from a spreadsheet does. -/
def dateStrTable : Table := { header := ["d"], rows := [[Value.str "2024-01-05"]] }

/-- C4 (counterexample): the date column is NOT left value-for-value
unchanged — `date_operations` overwrites it with its parsed form
(line 182: `df[date_col] = pd.to_datetime(df[date_col])`), so a column
of date strings comes back as datetime values. -/
theorem date_operations_changes_string_dates :
    (date_operations dateStrTable "d").toOption.bind (fun t => t.getCol "d") =
        some [Value.date 2024 1 5] ∧
      dateStrTable.getCol "d" = some [Value.str "2024-01-05"] ∧
      some [Value.date 2024 1 5] ≠ some [Value.str "2024-01-05"] := by
  refine ⟨by decide, by decide, by decide⟩

theorem string_append_left_cancel {a x y : String} (h : a ++ x = a ++ y) : x = y := by
  have hd := congrArg String.data h
  simp only [String.data_append] at hd
  exact String.ext (List.append_cancel_left hd)

theorem append_suffix_ne (a : String) {x y : String} (hxy : x ≠ y) : a ++ x ≠ a ++ y :=
  fun h => hxy (string_append_left_cancel h)

theorem string_ne_append (a x : String) (hx : x.data ≠ []) : a ≠ a ++ x := by
  intro h
  have hd := congrArg (fun s => s.data.length) h
  simp only [String.data_append, List.length_append] at hd
  have : x.data.length = 0 := by omega
  exact hx (List.length_eq_zero.mp this)

theorem isDate_exists {v : Value} (h : v.isDate) : ∃ y m d, v = Value.date y m d := by
  cases v <;> simp_all [Value.isDate]

theorem mapM_toDatetime_dates {c : List Value} (h : ∀ v ∈ c, v.isDate) :
    c.mapM toDatetime = some c := by
  induction c with
  | nil => rfl
  | cons x xs ih =>
    obtain ⟨y, m, d, hx⟩ := isDate_exists (h x (List.mem_cons_self x xs))
    subst hx
    rw [List.mapM_cons, ih (fun v hv => h v (by simp [hv]))]
    rfl

theorem list_set_getD_self {r : List Value} :
    ∀ {i : Nat}, i < r.length → r.set i (r.getD i Value.nan) = r := by
  induction r with
  | nil => intro i h; simp at h
  | cons x xs ih =>
    intro i h
    cases i with
    | zero => rfl
    | succ n =>
      simp only [List.set_cons_succ, List.getD_cons_succ]
      rw [ih (by simpa using h)]

theorem setCol_getCol_id {t : Table} {name : String} {c : List Value}
    (hwf : t.WF) (h : t.getCol name = some c) : t.setCol name c = t := by
  unfold Table.getCol at h
  unfold Table.setCol
  cases hc : t.colIdx name with
  | none => rw [hc] at h; simp at h
  | some i =>
    rw [hc] at h
    simp only [Option.map_some', Option.some.injEq] at h
    rw [← h]
    have hrows : List.zipWith (fun r v => r.set i v) t.rows
        (t.rows.map (fun r => r.getD i Value.nan)) = t.rows := by
      rw [List.zipWith_map_right, List.zipWith_same]
      conv_rhs => rw [← List.map_id t.rows]
      apply List.map_congr_left
      intro r hr
      simp only [id]
      exact list_set_getD_self (by rw [hwf.2 r hr]; exact Table.colIdx_lt hc)
    show Table.mk t.header (List.zipWith (fun r v => r.set i v) t.rows
      (t.rows.map (fun r => r.getD i Value.nan))) = t
    rw [hrows]


/-- Package of the effects of appending one fresh column. -/
theorem setCol_fresh_facts {t : Table} {name : String} {res : List Value}
    (hwf : t.WF) (hlen : res.length = t.nrows) (hfresh : name ∉ t.header) :
    (t.setCol name res).WF ∧
    (t.setCol name res).header = t.header ++ [name] ∧
    (t.setCol name res).nrows = t.nrows ∧
    (t.setCol name res).getCol name = some res ∧
    (∀ name' : String, name' ≠ name → (t.setCol name res).getCol name' = t.getCol name') :=
  ⟨Table.WF_setCol hwf hlen hfresh, Table.header_setCol_fresh hfresh,
    Table.nrows_setCol hlen, Table.getCol_setCol_self hwf hlen,
    fun _ h => Table.getCol_setCol_ne hwf hlen h⟩

/-- Appending four pairwise distinct fresh columns. -/
theorem setCol4_fresh_facts (t : Table) (k1 k2 k3 k4 : String) (c1 c2 c3 c4 : List Value)
    (hwf : t.WF)
    (hl1 : c1.length = t.nrows) (hl2 : c2.length = t.nrows) (hl3 : c3.length = t.nrows)
    (hl4 : c4.length = t.nrows)
    (hf1 : k1 ∉ t.header) (hf2 : k2 ∉ t.header) (hf3 : k3 ∉ t.header) (hf4 : k4 ∉ t.header)
    (h12 : k1 ≠ k2) (h13 : k1 ≠ k3) (h14 : k1 ≠ k4) (h23 : k2 ≠ k3) (h24 : k2 ≠ k4)
    (h34 : k3 ≠ k4) :
    ((((t.setCol k1 c1).setCol k2 c2).setCol k3 c3).setCol k4 c4).header =
      t.header ++ [k1, k2, k3, k4] ∧
    (∀ name ∈ t.header,
      ((((t.setCol k1 c1).setCol k2 c2).setCol k3 c3).setCol k4 c4).getCol name =
        t.getCol name) ∧
    ((((t.setCol k1 c1).setCol k2 c2).setCol k3 c3).setCol k4 c4).getCol k1 = some c1 ∧
    ((((t.setCol k1 c1).setCol k2 c2).setCol k3 c3).setCol k4 c4).getCol k2 = some c2 ∧
    ((((t.setCol k1 c1).setCol k2 c2).setCol k3 c3).setCol k4 c4).getCol k3 = some c3 ∧
    ((((t.setCol k1 c1).setCol k2 c2).setCol k3 c3).setCol k4 c4).getCol k4 = some c4 := by
  obtain ⟨hwfa, hhda, hnra, hgeta, hfra⟩ := setCol_fresh_facts hwf hl1 hf1
  have hf2a : k2 ∉ (t.setCol k1 c1).header := by
    rw [hhda]
    simp only [List.mem_append, List.mem_singleton]
    rintro (h | h)
    · exact hf2 h
    · exact h12 h.symm
  have hl2a : c2.length = (t.setCol k1 c1).nrows := by rw [hnra]; exact hl2
  obtain ⟨hwfb, hhdb, hnrb, hgetb, hfrb⟩ := setCol_fresh_facts hwfa hl2a hf2a
  have hf3b : k3 ∉ ((t.setCol k1 c1).setCol k2 c2).header := by
    rw [hhdb, hhda]
    simp only [List.mem_append, List.mem_singleton]
    rintro ((h | h) | h)
    · exact hf3 h
    · exact h13 h.symm
    · exact h23 h.symm
  have hl3b : c3.length = ((t.setCol k1 c1).setCol k2 c2).nrows := by
    rw [hnrb, hnra]; exact hl3
  obtain ⟨hwfc, hhdc, hnrc, hgetc, hfrc⟩ := setCol_fresh_facts hwfb hl3b hf3b
  have hf4c : k4 ∉ (((t.setCol k1 c1).setCol k2 c2).setCol k3 c3).header := by
    rw [hhdc, hhdb, hhda]
    simp only [List.mem_append, List.mem_singleton]
    rintro (((h | h) | h) | h)
    · exact hf4 h
    · exact h14 h.symm
    · exact h24 h.symm
    · exact h34 h.symm
  have hl4c : c4.length = (((t.setCol k1 c1).setCol k2 c2).setCol k3 c3).nrows := by
    rw [hnrc, hnrb, hnra]; exact hl4
  obtain ⟨hwfd, hhdd, hnrd, hgetd, hfrd⟩ := setCol_fresh_facts hwfc hl4c hf4c
  refine ⟨?_, ?_, ?_, ?_, ?_, hgetd⟩
  · rw [hhdd, hhdc, hhdb, hhda]
    simp
  · intro name hn
    have hn1 : name ≠ k1 := fun h => hf1 (h ▸ hn)
    have hn2 : name ≠ k2 := fun h => hf2 (h ▸ hn)
    have hn3 : name ≠ k3 := fun h => hf3 (h ▸ hn)
    have hn4 : name ≠ k4 := fun h => hf4 (h ▸ hn)
    rw [hfrd name hn4, hfrc name hn3, hfrb name hn2, hfra name hn1]
  · rw [hfrd k1 h14, hfrc k1 h13, hfrb k1 h12, hgeta]
  · rw [hfrd k2 h24, hfrc k2 h23, hgetb]
  · rw [hfrd k3 h34, hgetc]

/-- C4 (amended): on a column that already holds datetime values and
with the four derived names fresh, `date_operations` appends exactly
the four derived columns (year, month, day, day-of-week with
Monday = 0) and leaves every pre-existing column — the date column
included — unchanged.  (On a text date column the operation overwrites
the date column with its parsed datetime values, see
`date_operations_changes_string_dates`, so the claim as stated fails.) -/
theorem date_operations_adds_four_columns (df : Table) (date_col : String) (c : List Value)
    (hwf : df.WF) (hl : df.getCol date_col = some c)
    (hdates : ∀ v ∈ c, v.isDate)
    (hf1 : date_col ++ "_year" ∉ df.header)
    (hf2 : date_col ++ "_month" ∉ df.header)
    (hf3 : date_col ++ "_day" ∉ df.header)
    (hf4 : date_col ++ "_dayofweek" ∉ df.header) :
    ∃ t', date_operations df date_col = .ok t' ∧
      t'.header = df.header ++ [date_col ++ "_year", date_col ++ "_month",
        date_col ++ "_day", date_col ++ "_dayofweek"] ∧
      (∀ name ∈ df.header, t'.getCol name = df.getCol name) ∧
      t'.getCol (date_col ++ "_year") = some (c.map Value.yearOf) ∧
      t'.getCol (date_col ++ "_month") = some (c.map Value.monthOf) ∧
      t'.getCol (date_col ++ "_day") = some (c.map Value.dayOf) ∧
      t'.getCol (date_col ++ "_dayofweek") = some (c.map Value.dowOf) := by
  have hlen : c.length = df.nrows := Table.getCol_length hl
  obtain ⟨hhd, hframe, hg1, hg2, hg3, hg4⟩ := setCol4_fresh_facts df
    (date_col ++ "_year") (date_col ++ "_month") (date_col ++ "_day")
    (date_col ++ "_dayofweek")
    (c.map Value.yearOf) (c.map Value.monthOf) (c.map Value.dayOf) (c.map Value.dowOf)
    hwf (by simp [hlen]) (by simp [hlen]) (by simp [hlen]) (by simp [hlen])
    hf1 hf2 hf3 hf4
    (append_suffix_ne _ (by decide)) (append_suffix_ne _ (by decide))
    (append_suffix_ne _ (by decide)) (append_suffix_ne _ (by decide))
    (append_suffix_ne _ (by decide)) (append_suffix_ne _ (by decide))
  refine ⟨_, ?_, hhd, hframe, hg1, hg2, hg3, hg4⟩
  unfold date_operations
  rw [hl]
  show (match c.mapM toDatetime with
    | none => (Except.error "Date operation failed" : Except String Table)
    | some ds =>
      .ok (((((df.setCol date_col ds).setCol (date_col ++ "_year") (ds.map Value.yearOf)).setCol
          (date_col ++ "_month") (ds.map Value.monthOf)).setCol
          (date_col ++ "_day") (ds.map Value.dayOf)).setCol
          (date_col ++ "_dayofweek") (ds.map Value.dowOf))) = _
  rw [mapM_toDatetime_dates hdates]
  show Except.ok (((((df.setCol date_col c).setCol
      (date_col ++ "_year") (c.map Value.yearOf)).setCol
      (date_col ++ "_month") (c.map Value.monthOf)).setCol
      (date_col ++ "_day") (c.map Value.dayOf)).setCol
      (date_col ++ "_dayofweek") (c.map Value.dowOf)) = _
  rw [setCol_getCol_id hwf hl]

def dateTable : Table :=
  { header := ["d", "n"], rows := [[Value.date 2024 1 5, Value.num 7]] }

theorem date_operations_adds_four_columns_witness :
    ∃ t', date_operations dateTable "d" = .ok t' ∧
      t'.header = dateTable.header ++ ["d" ++ "_year", "d" ++ "_month",
        "d" ++ "_day", "d" ++ "_dayofweek"] ∧
      (∀ name ∈ dateTable.header, t'.getCol name = dateTable.getCol name) ∧
      t'.getCol ("d" ++ "_year") = some ([Value.date 2024 1 5].map Value.yearOf) ∧
      t'.getCol ("d" ++ "_month") = some ([Value.date 2024 1 5].map Value.monthOf) ∧
      t'.getCol ("d" ++ "_day") = some ([Value.date 2024 1 5].map Value.dayOf) ∧
      t'.getCol ("d" ++ "_dayofweek") = some ([Value.date 2024 1 5].map Value.dowOf) :=
  date_operations_adds_four_columns dateTable "d" [Value.date 2024 1 5]
    (by decide) (by decide) (by decide) (by decide) (by decide) (by decide) (by decide)

/-! ### `pivot_table` / `unpivot_table` -/

namespace Value

def isStr : Value → Bool
  | str _ => true
  | _ => false

/-- Constructor rank, used only to give group keys a definite
presentation order. -/
def rank : Value → Nat
  | negInf => 0
  | num _ => 1
  | inf => 2
  | nan => 3
  | str _ => 4
  | date _ _ _ => 5
  | sqrtv _ => 6

/-- Lexicographic comparison of character codes. -/
def charsLeb : List Char → List Char → Bool
  | [], _ => true
  | _ :: _, [] => false
  | a :: as, b :: bs =>
    if a.toNat < b.toNat then true
    else if b.toNat < a.toNat then false
    else charsLeb as bs

/-- A total comparison on cells: pandas presents pivot group keys
sorted; only distinctness and membership of the key lists matter to
the claims, so any total order is adequate. -/
def leb : Value → Value → Bool
  | num a, num b => decide (a ≤ b)
  | str a, str b => charsLeb a.data b.data
  | date y m d, date y' m' d' =>
    decide (y < y' ∨ (y = y' ∧ (m < m' ∨ (m = m' ∧ d ≤ d'))))
  | sqrtv a, sqrtv b => decide (a ≤ b)
  | a, b => decide (a.rank ≤ b.rank)

end Value

def insertSorted (v : Value) : List Value → List Value
  | [] => [v]
  | x :: xs => if Value.leb v x then v :: x :: xs else x :: insertSorted v xs

def sortVals (l : List Value) : List Value := l.foldr insertSorted []

/-- The sorted distinct values of a column: the group keys of a pivot. -/
def uniqueSorted (l : List Value) : List Value := sortVals l.dedup

theorem insertSorted_perm (v : Value) (l : List Value) :
    (insertSorted v l).Perm (v :: l) := by
  induction l with
  | nil => exact List.Perm.refl _
  | cons x xs ih =>
    unfold insertSorted
    by_cases h : Value.leb v x
    · rw [if_pos h]
    · rw [if_neg h]
      exact (ih.cons x).trans (List.Perm.swap v x xs)

theorem sortVals_perm (l : List Value) : (sortVals l).Perm l := by
  induction l with
  | nil => exact List.Perm.refl _
  | cons x xs ih =>
    show (insertSorted x (sortVals xs)).Perm (x :: xs)
    exact (insertSorted_perm x (sortVals xs)).trans (ih.cons x)

theorem uniqueSorted_nodup (l : List Value) : (uniqueSorted l).Nodup :=
  ((sortVals_perm l.dedup).nodup_iff).mpr (List.nodup_dedup l)

theorem uniqueSorted_mem {v : Value} {l : List Value} : v ∈ uniqueSorted l ↔ v ∈ l :=
  ((sortVals_perm l.dedup).mem_iff).trans List.mem_dedup

/-- The text label a pivot value provides as a result-column name (the
claims exercise text pivot values; other label kinds are out of the
model's scope). -/
def labelOf : Value → String
  | .str s => s
  | _ => ""

/-- Does a row belong to the (index value, pivot value) group? -/
def pivotPred (ii ic : Nat) (i c : Value) (r : List Value) : Bool :=
  decide (r.getD ii Value.nan = i) && decide (r.getD ic Value.nan = c)

/-- The value-column cells of one pivot group. -/
def groupVals (rows : List (List Value)) (ii ic iv : Nat) (i c : Value) : List Value :=
  (rows.filter (pivotPred ii ic i c)).map (fun r => r.getD iv Value.nan)

/-- `pd.pivot_table(df, values, index, columns, aggfunc)` followed by
`reset_index()` (`DataOperationsEngine.pivot_table`, lines 160–168; the
service materialises the pivot's row index as the first column when it
persists the result, and the round-trip claim melts that reset form).
Rows whose index or pivot key is null are dropped (pandas grouping
drops NaN keys); the group keys are the sorted distinct remaining
values; each cell aggregates the value column over its group with
`aggfunc` — an empty group yields the NaN cell; with the default
`dropna=True` pandas then prunes columns and rows that are entirely
NaN.  Column labels are the pivot values' text. -/
def pivot_table (df : Table) (values index columns : String) (aggfunc : String) :
    Except String Table :=
  match df.colIdx index, df.colIdx columns, df.colIdx values with
  | some ii, some ic, some iv =>
    let rows := df.rows.filter (fun r =>
      (r.getD ii Value.nan).notNull && (r.getD ic Value.nan).notNull)
    let is := uniqueSorted (rows.map (fun r => r.getD ii Value.nan))
    let cs := uniqueSorted (rows.map (fun r => r.getD ic Value.nan))
    match is.mapM (fun i =>
        (cs.mapM (fun c => aggApply aggfunc (groupVals rows ii ic iv i c))).map
          (fun vs => i :: vs)) with
    | none => .error "Pivot operation failed"
    | some body =>
      let keep := (List.range cs.length).filter (fun j =>
        body.any (fun r => (r.getD (j + 1) Value.nan).notNull))
      .ok { header := index :: keep.map (fun j => labelOf (cs.getD j Value.nan)),
            rows := (body.filter (fun r =>
              keep.any (fun j => (r.getD (j + 1) Value.nan).notNull))).map
              (fun r => r.getD 0 Value.nan :: keep.map (fun j => r.getD (j + 1) Value.nan)) }
  | _, _, _ => .error "Pivot operation failed"

/-- `pd.melt(df, id_vars, value_vars)`
(`DataOperationsEngine.unpivot_table`, lines 170–176): melt first
rejects a frame that already has a column named `value` (pandas ≥ 1.1
raises `ValueError: value_name (value) cannot match an element in the
DataFrame columns`); otherwise one output row per (value column, input
row) pair — value columns outer, rows inner — carrying the id cells,
the value column's name under `variable` and its cell under `value`.
Both that conflict and a missing column raise, re-raised as
`ValueError`. -/
def unpivot_table (df : Table) (id_vars value_vars : List String) : Except String Table :=
  if "value" ∈ df.header then .error "Unpivot operation failed"
  else
    match id_vars.mapM (fun c => df.colIdx c), value_vars.mapM (fun c => df.colIdx c) with
    | some idIdxs, some valIdxs =>
      .ok { header := id_vars ++ ["variable", "value"],
            rows := (value_vars.zip valIdxs).flatMap (fun vc =>
              df.rows.map (fun r =>
                idIdxs.map (fun i => r.getD i Value.nan) ++
                  [Value.str vc.1, r.getD vc.2 Value.nan])) }
    | _, _ => .error "Unpivot operation failed"

/-- Pivot, then unpivot the result "with matching parameters": the
pivot's index column as the id, its produced value columns as the
melted columns. -/
def pivotRoundTrip (df : Table) (values index columns aggfunc : String) :
    Except String Table :=
  match pivot_table df values index columns aggfunc with
  | .ok p => unpivot_table p [index] (p.header.filter (fun h => decide (h ≠ index)))
  | .error e => .error e

/-- The (index, column, value) triples of a table, read off three named
columns, row by row. -/
def triplesOf (t : Table) (a b c : String) : Option (List (Value × Value × Value)) :=
  match t.getCol a, t.getCol b, t.getCol c with
  | some la, some lb, some lc => some (la.zip (lb.zip lc))
  | _, _, _ => none

/-- Two rows aggregating into one cell: the round-trip loses them. -/
def dupPivotTable : Table :=
  { header := ["i", "c", "v"],
    rows := [[Value.str "r", Value.str "p", Value.num 1],
      [Value.str "r", Value.str "p", Value.num 3]] }

/-- C5 (counterexample): pivot-then-unpivot does not recover the
original triples when two rows share an (index, pivot) pair — the
pivot cell holds their mean, and only the single averaged triple comes
back. -/
theorem pivot_unpivot_not_inverse :
    triplesOf dupPivotTable "i" "c" "v" =
      some [(Value.str "r", Value.str "p", Value.num 1),
        (Value.str "r", Value.str "p", Value.num 3)] ∧
    (pivotRoundTrip dupPivotTable "v" "i" "c" "mean").toOption.bind
        (fun t => triplesOf t "i" "variable" "value") =
      some [(Value.str "r", Value.str "p", Value.num 2)] ∧
    ¬ ([(Value.str "r", Value.str "p", Value.num 2)] :
        List (Value × Value × Value)).Perm
      [(Value.str "r", Value.str "p", Value.num 1),
        (Value.str "r", Value.str "p", Value.num 3)] := by
  refine ⟨by decide, by with_unfolding_all decide, ?_⟩
  intro h
  have := h.length_eq
  simp at this

theorem mapM_option_eq_map {α β : Type} {f : α → Option β} {g : α → β} :
    ∀ {l : List α}, (∀ a ∈ l, f a = some (g a)) → l.mapM f = some (l.map g) := by
  intro l
  induction l with
  | nil => intro _; rfl
  | cons x xs ih =>
    intro h
    rw [List.mapM_cons, h x (List.mem_cons_self x xs),
      ih (fun a ha => h a (List.mem_cons_of_mem x ha))]
    rfl

theorem map_getD_range {α : Type} (d : α) : ∀ (l : List α),
    (List.range l.length).map (fun j => l.getD j d) = l := by
  intro l
  induction l with
  | nil => rfl
  | cons x xs ih =>
    rw [List.length_cons, List.range_succ_eq_map, List.map_cons, List.map_map]
    have h2 : (List.range xs.length).map ((fun j => (x :: xs).getD j d) ∘ Nat.succ) = xs := by
      refine Eq.trans (List.map_congr_left ?_) ih
      intro j _
      rfl
    rw [h2]
    rfl

theorem map_comp_getD_range {α β : Type} (d : α) (f : α → β) (l : List α) :
    (List.range l.length).map (fun j => f (l.getD j d)) = l.map f := by
  conv_rhs => rw [← map_getD_range d l]
  rw [List.map_map]
  rfl

theorem rebuild_row {α : Type} (d : α) {n : Nat} : ∀ {r : List α}, r.length = n + 1 →
    r.getD 0 d :: (List.range n).map (fun j => r.getD (j + 1) d) = r := by
  intro r h
  cases r with
  | nil => simp at h
  | cons x t =>
    have ht : t.length = n := by simpa using h
    subst ht
    simp only [List.getD_cons_zero, List.getD_cons_succ]
    rw [map_getD_range d t]

theorem getD_map_lt {α β : Type} (d : β) (d' : α) (f : α → β) {l : List α} {j : Nat}
    (h : j < l.length) : (l.map f).getD j d = f (l.getD j d') := by
  rw [List.getD_eq_getElem _ _ (by simpa using h), List.getD_eq_getElem _ _ h, List.getElem_map]

theorem getD_mem {α : Type} (d : α) {l : List α} {j : Nat} (h : j < l.length) :
    l.getD j d ∈ l := by
  rw [List.getD_eq_getElem _ _ h]
  exact List.getElem_mem h

/-- A doubly indexed list gathered column-major is a permutation of the
same list gathered row-major. -/
theorem flatMap_comm {α β γ : Type} (g : α → β → γ) :
    ∀ (l1 : List α) (l2 : List β),
      (l1.flatMap (fun a => l2.map (fun b => g a b))).Perm
        (l2.flatMap (fun b => l1.map (fun a => g a b))) := by
  intro l1
  induction l1 with
  | nil =>
    intro l2
    have h : (l2.flatMap (fun b => ([] : List α).map (fun a => g a b))) = [] := by simp
    rw [h]
    exact List.Perm.refl _
  | cons a l1' ih =>
    intro l2
    rw [List.flatMap_cons]
    have hsub : ∀ (L : List β),
        (L.flatMap (fun b => g a b :: l1'.map (fun a => g a b))).Perm
          (L.map (fun b => g a b) ++ L.flatMap (fun b => l1'.map (fun a => g a b))) := by
      intro L
      induction L with
      | nil => exact List.Perm.refl _
      | cons b L' ihL =>
        rw [List.flatMap_cons, List.map_cons, List.flatMap_cons, List.cons_append,
          List.cons_append]
        refine List.Perm.cons _ ?_
        exact ((ihL.append_left _).trans (List.perm_append_comm_assoc _ _ _))
    have hrw : (l2.flatMap (fun b => (a :: l1').map (fun a => g a b))) =
        l2.flatMap (fun b => g a b :: l1'.map (fun a => g a b)) := by
      simp only [List.map_cons]
    rw [hrw]
    exact ((ih l2).append_left _).trans (hsub l2).symm

/-- Looking each name of a duplicate-free list up in a header made of a
foreign prefix followed by that list yields the shifted positions in
order. -/
theorem mapM_findIdx?_nodup :
    ∀ (L : List String) (pre : List String), L.Nodup → (∀ lab ∈ L, lab ∉ pre) →
      L.mapM (fun c => (pre ++ L).findIdx? (fun x => decide (x = c))) =
        some ((List.range L.length).map (fun j => j + pre.length)) := by
  intro L
  induction L with
  | nil => intro pre _ _; rfl
  | cons lab L' ih =>
    intro pre hnd hnp
    rw [List.mapM_cons]
    have h1 : ((pre ++ lab :: L').findIdx? (fun x => decide (x = lab))) = some pre.length := by
      rw [List.findIdx?_append]
      have hpre : (pre.findIdx? (fun x => decide (x = lab))) = none := by
        rw [List.findIdx?_eq_none_iff]
        intro x hx
        simp only [decide_eq_false_iff_not]
        intro he
        exact hnp lab (List.mem_cons_self lab L') (he ▸ hx)
      have hhead : ((lab :: L').findIdx? (fun x => decide (x = lab))) = some 0 := by
        simp [List.findIdx?_cons]
      rw [hpre, hhead]
      simp
    have hshift : pre ++ lab :: L' = (pre ++ [lab]) ++ L' := by simp
    have htail : L'.mapM (fun c => (pre ++ lab :: L').findIdx? (fun x => decide (x = c))) =
        some ((List.range L'.length).map (fun j => j + (pre.length + 1))) := by
      have hnp' : ∀ l ∈ L', l ∉ pre ++ [lab] := by
        intro l hl
        simp only [List.mem_append, List.mem_singleton]
        rintro (hc | hc)
        · exact hnp l (List.mem_cons_of_mem lab hl) hc
        · exact (List.nodup_cons.mp hnd).1 (hc ▸ hl)
      have := ih (pre ++ [lab]) (List.nodup_cons.mp hnd).2 hnp'
      rw [hshift]
      simpa using this
    rw [h1, htail]
    show some _ = _
    rw [List.length_cons, List.range_succ_eq_map, List.map_cons, List.map_map]
    have : (List.range L'.length).map ((fun j => j + pre.length) ∘ Nat.succ) =
        (List.range L'.length).map (fun j => j + (pre.length + 1)) := by
      apply List.map_congr_left
      intro j _
      show Nat.succ j + pre.length = j + (pre.length + 1)
      omega
    rw [this, Nat.zero_add]

theorem pivotPred_eq_decide (ii ic : Nat) (i c : Value) (r : List Value) :
    pivotPred ii ic i c r =
      decide ((r.getD ii Value.nan, r.getD ic Value.nan) = (i, c)) := by
  simp [pivotPred, Prod.ext_iff]

theorem isFin_num {v : Value} (h : v.isFin = true) : ∃ q : Rat, v = Value.num q := by
  cases v <;> simp_all [Value.isFin]

theorem isStr_notNull {v : Value} (h : v.isStr = true) : v.notNull = true := by
  cases v <;> simp_all [Value.isStr, Value.notNull]

theorem isStr_str {v : Value} (h : v.isStr = true) : ∃ s, v = Value.str s := by
  cases v <;> simp_all [Value.isStr]

/-- The mean of a one-value numeric group is that value. -/
theorem aggApply_mean_singleton (q : Rat) :
    aggApply "mean" [Value.num q] = some (Value.num q) := by
  have h : aggApply "mean" [Value.num q] = seriesMean [Value.num q] := by
    simp [aggApply]
  rw [h]
  show (if ([Value.num q].filter Value.notNull).isEmpty then some Value.nan
    else do
      let s ← seriesSum [Value.num q]
      Value.divV s (Value.num (([Value.num q].filter Value.notNull).length : Rat))) =
    some (Value.num q)
  have hfil : [Value.num q].filter Value.notNull = [Value.num q] := rfl
  rw [hfil]
  have hsum : seriesSum [Value.num q] = some (Value.num q) := rfl
  simp only [List.isEmpty_cons, List.length_cons, List.length_nil, hsum]
  show Value.divV (Value.num q) (Value.num ((1 : Nat) : Rat)) = some (Value.num q)
  simp [Value.divV]

/-- One pivot cell under the conditions of the round-trip claim: the
single value of its group. -/
def pivotCell (rows : List (List Value)) (ii ic iv : Nat) (i c : Value) : Value :=
  (groupVals rows ii ic iv i c).getD 0 Value.nan

/-- The body a pivot produces when nothing is pruned: one row per index
key, one cell per pivot key. -/
def pivotGridRows (rows : List (List Value)) (ii ic iv : Nat) : List (List Value) :=
  (uniqueSorted (keyList rows ii)).map (fun i =>
    i :: (uniqueSorted (keyList rows ic)).map (fun c => pivotCell rows ii ic iv i c))

/-- When every group key is non-null, every cell aggregates to its
group's head value and no cell is null, the pivot is the full grid. -/
theorem pivot_table_grid (df : Table) (values index columns : String) (ii ic iv : Nat)
    (hii : df.colIdx index = some ii) (hic : df.colIdx columns = some ic)
    (hiv : df.colIdx values = some iv)
    (hnn : ∀ r ∈ df.rows,
      ((r.getD ii Value.nan).notNull && (r.getD ic Value.nan).notNull) = true)
    (hcellOk : ∀ i ∈ uniqueSorted (keyList df.rows ii),
      ∀ c ∈ uniqueSorted (keyList df.rows ic),
        aggApply "mean" (groupVals df.rows ii ic iv i c) =
          some (pivotCell df.rows ii ic iv i c))
    (hcellnn : ∀ i ∈ uniqueSorted (keyList df.rows ii),
      ∀ c ∈ uniqueSorted (keyList df.rows ic),
        (pivotCell df.rows ii ic iv i c).notNull = true)
    (hne : df.rows ≠ []) :
    pivot_table df values index columns "mean" = .ok
      { header := index :: (uniqueSorted (keyList df.rows ic)).map labelOf,
        rows := pivotGridRows df.rows ii ic iv } := by
  have hIne : ∃ i, i ∈ uniqueSorted (keyList df.rows ii) := by
    obtain ⟨r0, rest, hr⟩ := List.exists_cons_of_ne_nil hne
    refine ⟨r0.getD ii Value.nan, uniqueSorted_mem.mpr ?_⟩
    rw [hr]
    exact List.mem_map_of_mem _ (List.mem_cons_self _ _)
  have hCne : ∃ c, c ∈ uniqueSorted (keyList df.rows ic) := by
    obtain ⟨r0, rest, hr⟩ := List.exists_cons_of_ne_nil hne
    refine ⟨r0.getD ic Value.nan, uniqueSorted_mem.mpr ?_⟩
    rw [hr]
    exact List.mem_map_of_mem _ (List.mem_cons_self _ _)
  have hnpos : 0 < (uniqueSorted (keyList df.rows ic)).length := by
    obtain ⟨c0, hc0⟩ := hCne
    exact List.length_pos.mpr (List.ne_nil_of_mem hc0)
  have hbody_mem : ∀ r ∈ pivotGridRows df.rows ii ic iv,
      ∃ i ∈ uniqueSorted (keyList df.rows ii),
        r = i :: (uniqueSorted (keyList df.rows ic)).map
          (fun c => pivotCell df.rows ii ic iv i c) := by
    intro r hr
    obtain ⟨i, hi, he⟩ := List.mem_map.mp hr
    exact ⟨i, hi, he.symm⟩
  have hbody_nn : ∀ r ∈ pivotGridRows df.rows ii ic iv,
      ∀ j, j < (uniqueSorted (keyList df.rows ic)).length →
        (r.getD (j + 1) Value.nan).notNull = true := by
    intro r hr j hj
    obtain ⟨i, hi, he⟩ := hbody_mem r hr
    subst he
    rw [List.getD_cons_succ, getD_map_lt Value.nan Value.nan _ hj]
    exact hcellnn i hi _ (getD_mem Value.nan hj)
  have hbody_len : ∀ r ∈ pivotGridRows df.rows ii ic iv,
      r.length = (uniqueSorted (keyList df.rows ic)).length + 1 := by
    intro r hr
    obtain ⟨i, hi, he⟩ := hbody_mem r hr
    subst he
    simp
  have hmapM : (uniqueSorted (keyList df.rows ii)).mapM (fun i =>
      ((uniqueSorted (keyList df.rows ic)).mapM (fun c =>
        aggApply "mean" (groupVals df.rows ii ic iv i c))).map (fun vs => i :: vs)) =
      some (pivotGridRows df.rows ii ic iv) := by
    unfold pivotGridRows
    apply mapM_option_eq_map
    intro i hi
    rw [mapM_option_eq_map (fun c hc => hcellOk i hi c hc)]
    rfl
  unfold pivot_table
  simp only [hii, hic, hiv]
  rw [List.filter_eq_self.mpr hnn]
  rw [show (List.map (fun r => r.getD ii Value.nan) df.rows) = keyList df.rows ii from rfl]
  rw [show (List.map (fun r => r.getD ic Value.nan) df.rows) = keyList df.rows ic from rfl]
  rw [hmapM]
  refine congrArg Except.ok ?_
  have hkeep : (List.range (uniqueSorted (keyList df.rows ic)).length).filter
      (fun j => (pivotGridRows df.rows ii ic iv).any
        (fun r => (r.getD (j + 1) Value.nan).notNull)) =
      List.range (uniqueSorted (keyList df.rows ic)).length := by
    apply List.filter_eq_self.mpr
    intro j hj
    rw [List.any_eq_true]
    obtain ⟨i0, hi0⟩ := hIne
    refine ⟨_, List.mem_map_of_mem _ hi0, ?_⟩
    exact hbody_nn _ (List.mem_map_of_mem _ hi0) j (List.mem_range.mp hj)
  rw [hkeep]
  refine congrArg₂ Table.mk ?_ ?_
  · rw [map_comp_getD_range Value.nan labelOf (uniqueSorted (keyList df.rows ic))]
  · have hfilterall : (pivotGridRows df.rows ii ic iv).filter
        (fun r => (List.range (uniqueSorted (keyList df.rows ic)).length).any
          (fun j => (r.getD (j + 1) Value.nan).notNull)) =
        pivotGridRows df.rows ii ic iv := by
      apply List.filter_eq_self.mpr
      intro r hr
      rw [List.any_eq_true]
      exact ⟨0, List.mem_range.mpr hnpos, hbody_nn r hr 0 hnpos⟩
    rw [hfilterall]
    refine Eq.trans (List.map_congr_left ?_) (List.map_id _)
    intro r hr
    exact rebuild_row Value.nan (hbody_len r hr)

/-- Melting a table of shape `index :: labels` over all its label
columns, none of which is named `value`: one output row per
(label, row) pair, labels outer. -/
theorem unpivot_grid (index : String) (labels : List String) (body : List (List Value))
    (hnd : labels.Nodup) (hni : index ∉ labels)
    (hvi : index ≠ "value") (hvl : "value" ∉ labels) :
    unpivot_table ⟨index :: labels, body⟩ [index] labels = .ok
      { header := [index, "variable", "value"],
        rows := (labels.zip ((List.range labels.length).map (fun j => j + 1))).flatMap
          (fun vc => body.map (fun r =>
            [r.getD 0 Value.nan, Value.str vc.1, r.getD vc.2 Value.nan])) } := by
  have hnp : ∀ lab ∈ labels, lab ∉ ([index] : List String) := by
    intro lab hl
    simp only [List.mem_singleton]
    intro he
    exact hni (he ▸ hl)
  have hval := mapM_findIdx?_nodup labels [index] hnd hnp
  simp only [List.singleton_append, List.length_singleton] at hval
  have h0 : Table.colIdx ⟨index :: labels, body⟩ index = some 0 := by
    simp [Table.colIdx, List.findIdx?_cons]
  have hid : (([index] : List String).mapM (fun c => Table.colIdx ⟨index :: labels, body⟩ c)) =
      some [0] := by
    rw [List.mapM_cons, h0]
    rfl
  have hvv : (labels.mapM (fun c => Table.colIdx ⟨index :: labels, body⟩ c)) =
      some ((List.range labels.length).map (fun j => j + 1)) := by
    have hfe : (fun c => Table.colIdx ⟨index :: labels, body⟩ c) =
        (fun c => (index :: labels).findIdx? (fun x => decide (x = c))) := rfl
    rw [hfe]
    exact hval
  have hnotin : "value" ∉ (Table.mk (index :: labels) body).header := by
    rw [List.mem_cons]
    rintro (h | h)
    · exact hvi h.symm
    · exact hvl h
  unfold unpivot_table
  rw [if_neg hnotin]
  simp only [hid, hvv]
  rfl

theorem flatMap_congr_mem {α β : Type} {l : List α} {f g : α → List β}
    (h : ∀ a ∈ l, f a = g a) : l.flatMap f = l.flatMap g := by
  induction l with
  | nil => rfl
  | cons x xs ih =>
    rw [List.flatMap_cons, List.flatMap_cons, h x (List.mem_cons_self x xs),
      ih (fun a ha => h a (List.mem_cons_of_mem x ha))]

theorem zip3_keyList (rows : List (List Value)) (a b c : Nat) :
    (keyList rows a).zip ((keyList rows b).zip (keyList rows c)) =
      rows.map (fun r => (r.getD a Value.nan, r.getD b Value.nan, r.getD c Value.nan)) := by
  unfold keyList
  rw [List.zip_map', List.zip_map']

theorem countP_eq_one_of_nodup_mem {α : Type} [DecidableEq α] {l : List α} {a : α}
    (hnd : l.Nodup) (ha : a ∈ l) : l.countP (fun x => decide (x = a)) = 1 := by
  induction l with
  | nil => simp at ha
  | cons x xs ih =>
    rw [List.countP_cons]
    rcases List.mem_cons.mp ha with rfl | hmem
    · have hx : xs.countP (fun y => decide (y = a)) = 0 := by
        rw [List.countP_eq_zero]
        intro y hy
        simp only [decide_eq_true_eq]
        intro he
        exact (List.nodup_cons.mp hnd).1 (he ▸ hy)
      simp [hx]
    · have hx : (decide (x = a)) = false := by
        simp only [decide_eq_false_iff_not]
        intro he
        exact (List.nodup_cons.mp hnd).1 (he ▸ hmem)
      rw [ih (List.nodup_cons.mp hnd).2 hmem, hx]
      simp

/-- When the table's (index, pivot) pairs enumerate the key product
exactly once, every group is a single row. -/
theorem groupVals_singleton (df : Table) (ii ic iv : Nat)
    (hpairs : (df.rows.map (fun r => (r.getD ii Value.nan, r.getD ic Value.nan))).Perm
      ((uniqueSorted (keyList df.rows ii)).product (uniqueSorted (keyList df.rows ic))))
    {i c : Value}
    (hmem : (i, c) ∈ (uniqueSorted (keyList df.rows ii)).product
      (uniqueSorted (keyList df.rows ic))) :
    ∃ r0 ∈ df.rows, df.rows.filter (pivotPred ii ic i c) = [r0] ∧
      r0.getD ii Value.nan = i ∧ r0.getD ic Value.nan = c := by
  have hcnt : (df.rows.filter (pivotPred ii ic i c)).length = 1 := by
    rw [← List.countP_eq_length_filter]
    have h1 : df.rows.countP (pivotPred ii ic i c) =
        df.rows.countP
          (fun r => decide ((r.getD ii Value.nan, r.getD ic Value.nan) = (i, c))) := by
      apply List.countP_congr
      intro r _
      rw [pivotPred_eq_decide]
    have h2 : (df.rows.map (fun r => (r.getD ii Value.nan, r.getD ic Value.nan))).countP
        (fun x => decide (x = (i, c))) =
        df.rows.countP
          (fun r => decide ((r.getD ii Value.nan, r.getD ic Value.nan) = (i, c))) := by
      rw [List.countP_map]
      rfl
    rw [h1, ← h2, hpairs.countP_eq]
    exact countP_eq_one_of_nodup_mem
      (List.Nodup.product (uniqueSorted_nodup _) (uniqueSorted_nodup _)) hmem
  obtain ⟨r0, hr0⟩ := List.length_eq_one.mp hcnt
  have hr0mem : r0 ∈ df.rows.filter (pivotPred ii ic i c) := by
    rw [hr0]
    exact List.mem_cons_self r0 []
  have hrm := List.mem_filter.mp hr0mem
  have hp := hrm.2
  rw [pivotPred_eq_decide] at hp
  have hpe := of_decide_eq_true hp
  exact ⟨r0, hrm.1, hr0, congrArg Prod.fst hpe, congrArg Prod.snd hpe⟩

/-- The rows `pd.melt` produces from the grid-form pivot: one row per
(pivot label, grid row) pair. -/
def meltGridRows (rows : List (List Value)) (ii ic iv : Nat) : List (List Value) :=
  let labels := (uniqueSorted (keyList rows ic)).map labelOf
  (labels.zip ((List.range labels.length).map (fun j => j + 1))).flatMap
    (fun vc => (pivotGridRows rows ii ic iv).map (fun r =>
      [r.getD 0 Value.nan, Value.str vc.1, r.getD vc.2 Value.nan]))

/-- C5 (amended): for a nonempty table whose index column is
non-null, whose pivot column holds text labels that avoid the reserved
names (the index column's name, `variable`, `value`), whose value
column is finite-numeric, and whose (index, pivot) pairs enumerate
each pair of distinct keys exactly once, pivoting with `mean` and then
unpivoting with matching parameters recovers the original set of
(index, column, value) triples of the table, modulo row ordering. -/
theorem pivot_unpivot_roundtrip_grid
    (df : Table) (values index columns : String) (ii ic iv : Nat)
    (hii : df.colIdx index = some ii) (hic : df.colIdx columns = some ic)
    (hiv : df.colIdx values = some iv)
    (hidx : ∀ v ∈ keyList df.rows ii, v.notNull = true)
    (hstr : ∀ v ∈ keyList df.rows ic, v.isStr = true)
    (hval : ∀ v ∈ keyList df.rows iv, v.isFin = true)
    (hlab : ∀ v ∈ keyList df.rows ic, labelOf v ≠ index)
    (hlabvar : ∀ v ∈ keyList df.rows ic, labelOf v ≠ "variable")
    (hlabval : ∀ v ∈ keyList df.rows ic, labelOf v ≠ "value")
    (hvar : index ≠ "variable") (hvalname : index ≠ "value")
    (hne : df.rows ≠ [])
    (hpairs : (df.rows.map (fun r => (r.getD ii Value.nan, r.getD ic Value.nan))).Perm
      ((uniqueSorted (keyList df.rows ii)).product (uniqueSorted (keyList df.rows ic)))) :
    ∃ out tr trOut,
      pivotRoundTrip df values index columns "mean" = .ok out ∧
      triplesOf df index columns values = some tr ∧
      triplesOf out index "variable" "value" = some trOut ∧
      trOut.Perm tr := by
  -- each (index key, pivot key) group is one row holding one number
  have hsingle : ∀ i c, (i, c) ∈ (uniqueSorted (keyList df.rows ii)).product
      (uniqueSorted (keyList df.rows ic)) →
      ∃ q : Rat, groupVals df.rows ii ic iv i c = [Value.num q] := by
    intro i c hp
    obtain ⟨r0, hr0mem, hfil, hpi, hpc⟩ := groupVals_singleton df ii ic iv hpairs hp
    obtain ⟨q, hq⟩ := isFin_num (hval _ (List.mem_map_of_mem _ hr0mem))
    refine ⟨q, ?_⟩
    unfold groupVals
    rw [hfil, List.map_cons, List.map_nil, hq]
  have htrip : ∀ r ∈ df.rows,
      pivotCell df.rows ii ic iv (r.getD ii Value.nan) (r.getD ic Value.nan) =
        r.getD iv Value.nan := by
    intro r hr
    have hpmem : (r.getD ii Value.nan, r.getD ic Value.nan) ∈
        (uniqueSorted (keyList df.rows ii)).product (uniqueSorted (keyList df.rows ic)) :=
      hpairs.mem_iff.mp (List.mem_map_of_mem _ hr)
    obtain ⟨q, hq⟩ := hsingle _ _ hpmem
    have hrin : r ∈ df.rows.filter
        (pivotPred ii ic (r.getD ii Value.nan) (r.getD ic Value.nan)) := by
      rw [List.mem_filter]
      refine ⟨hr, ?_⟩
      rw [pivotPred_eq_decide]
      exact decide_eq_true rfl
    have hvin : r.getD iv Value.nan ∈
        groupVals df.rows ii ic iv (r.getD ii Value.nan) (r.getD ic Value.nan) :=
      List.mem_map_of_mem _ hrin
    rw [hq] at hvin
    have hveq : r.getD iv Value.nan = Value.num q := List.mem_singleton.mp hvin
    unfold pivotCell
    rw [hq, hveq]
    rfl
  have hcellOk : ∀ i ∈ uniqueSorted (keyList df.rows ii),
      ∀ c ∈ uniqueSorted (keyList df.rows ic),
        aggApply "mean" (groupVals df.rows ii ic iv i c) =
          some (pivotCell df.rows ii ic iv i c) := by
    intro i hi c hc
    obtain ⟨q, hq⟩ := hsingle i c (List.pair_mem_product.mpr ⟨hi, hc⟩)
    unfold pivotCell
    rw [hq]
    exact aggApply_mean_singleton q
  have hcellnn : ∀ i ∈ uniqueSorted (keyList df.rows ii),
      ∀ c ∈ uniqueSorted (keyList df.rows ic),
        (pivotCell df.rows ii ic iv i c).notNull = true := by
    intro i hi c hc
    obtain ⟨q, hq⟩ := hsingle i c (List.pair_mem_product.mpr ⟨hi, hc⟩)
    unfold pivotCell
    rw [hq]
    rfl
  have hnn : ∀ r ∈ df.rows,
      ((r.getD ii Value.nan).notNull && (r.getD ic Value.nan).notNull) = true := by
    intro r hr
    rw [Bool.and_eq_true]
    exact ⟨hidx _ (List.mem_map_of_mem _ hr),
      isStr_notNull (hstr _ (List.mem_map_of_mem _ hr))⟩
  have hpiv := pivot_table_grid df values index columns ii ic iv hii hic hiv hnn
    hcellOk hcellnn hne
  -- the pivot's column labels
  have hlabstr : ∀ c ∈ uniqueSorted (keyList df.rows ic), ∃ s, c = Value.str s := by
    intro c hc
    exact isStr_str (hstr c (uniqueSorted_mem.mp hc))
  have hlabnd : ((uniqueSorted (keyList df.rows ic)).map labelOf).Nodup := by
    refine List.Nodup.map_on ?_ (uniqueSorted_nodup _)
    intro x hx y hy he
    obtain ⟨sx, hsx⟩ := hlabstr x hx
    obtain ⟨sy, hsy⟩ := hlabstr y hy
    subst hsx
    subst hsy
    simpa [labelOf] using he
  have hlabni : index ∉ (uniqueSorted (keyList df.rows ic)).map labelOf := by
    intro hcontra
    obtain ⟨c, hc, he⟩ := List.mem_map.mp hcontra
    exact hlab c (uniqueSorted_mem.mp hc) he
  have hfiltlab : ((index :: (uniqueSorted (keyList df.rows ic)).map labelOf).filter
      (fun h => decide (h ≠ index))) = (uniqueSorted (keyList df.rows ic)).map labelOf := by
    have hpx : (decide (index ≠ index)) = false := by simp
    rw [List.filter_cons, hpx]
    simp only [Bool.false_eq_true, if_false]
    apply List.filter_eq_self.mpr
    intro lab hlabmem
    exact decide_eq_true (fun he => hlabni (he ▸ hlabmem))
  have hvalni : "value" ∉ (uniqueSorted (keyList df.rows ic)).map labelOf := by
    intro hcontra
    obtain ⟨c, hc, he⟩ := List.mem_map.mp hcontra
    exact hlabval c (uniqueSorted_mem.mp hc) he
  have hmelt := unpivot_grid index ((uniqueSorted (keyList df.rows ic)).map labelOf)
    (pivotGridRows df.rows ii ic iv) hlabnd hlabni hvalname hvalni
  have hrt : pivotRoundTrip df values index columns "mean" = .ok
      { header := [index, "variable", "value"],
        rows := meltGridRows df.rows ii ic iv } := by
    unfold pivotRoundTrip
    rw [hpiv]
    show unpivot_table
      ⟨index :: (uniqueSorted (keyList df.rows ic)).map labelOf,
        pivotGridRows df.rows ii ic iv⟩
      [index]
      ((index :: (uniqueSorted (keyList df.rows ic)).map labelOf).filter
        (fun h => decide (h ≠ index))) = _
    rw [hfiltlab, hmelt]
    rfl
  have hcol : ∀ (rows : List (List Value)),
      Table.colIdx ⟨[index, "variable", "value"], rows⟩ index = some 0 ∧
      Table.colIdx ⟨[index, "variable", "value"], rows⟩ "variable" = some 1 ∧
      Table.colIdx ⟨[index, "variable", "value"], rows⟩ "value" = some 2 := by
    intro rows
    refine ⟨?_, ?_, ?_⟩
    · simp [Table.colIdx, List.findIdx?_cons]
    · simp [Table.colIdx, List.findIdx?_cons, hvar]
    · simp [Table.colIdx, List.findIdx?_cons, hvalname]
  have htosgen : ∀ (rows : List (List Value)),
      triplesOf ⟨[index, "variable", "value"], rows⟩ index "variable" "value" =
        some ((keyList rows 0).zip ((keyList rows 1).zip (keyList rows 2))) := by
    intro rows
    obtain ⟨h0, h1, h2⟩ := hcol rows
    unfold triplesOf Table.getCol
    rw [h0, h1, h2]
    rfl
  have htrdf : triplesOf df index columns values =
      some ((keyList df.rows ii).zip ((keyList df.rows ic).zip (keyList df.rows iv))) := by
    unfold triplesOf Table.getCol
    rw [hii, hic, hiv]
    rfl
  -- transform the melted triples
  have e1 : (meltGridRows df.rows ii ic iv).map
      (fun r => (r.getD 0 Value.nan, r.getD 1 Value.nan, r.getD 2 Value.nan)) =
      (((uniqueSorted (keyList df.rows ic)).map labelOf).zip
        ((List.range ((uniqueSorted (keyList df.rows ic)).map labelOf).length).map
          (fun j => j + 1))).flatMap
      (fun vc => (pivotGridRows df.rows ii ic iv).map (fun r =>
        (r.getD 0 Value.nan, Value.str vc.1, r.getD vc.2 Value.nan))) := by
    unfold meltGridRows
    rw [List.map_flatMap]
    apply flatMap_congr_mem
    intro vc _
    rw [List.map_map]
    apply List.map_congr_left
    intro r _
    rfl
  have e2 : (((uniqueSorted (keyList df.rows ic)).map labelOf).zip
      ((List.range ((uniqueSorted (keyList df.rows ic)).map labelOf).length).map
        (fun j => j + 1))) =
      (List.range (uniqueSorted (keyList df.rows ic)).length).map
        (fun j => (labelOf ((uniqueSorted (keyList df.rows ic)).getD j Value.nan), j + 1)) := by
    rw [List.length_map]
    conv_lhs => rw [← map_comp_getD_range Value.nan labelOf (uniqueSorted (keyList df.rows ic))]
    rw [List.zip_map']
  have e4 : ∀ j ∈ List.range (uniqueSorted (keyList df.rows ic)).length,
      (pivotGridRows df.rows ii ic iv).map (fun r =>
        (r.getD 0 Value.nan,
          Value.str (labelOf ((uniqueSorted (keyList df.rows ic)).getD j Value.nan)),
          r.getD (j + 1) Value.nan)) =
      (uniqueSorted (keyList df.rows ii)).map (fun i =>
        (i, (uniqueSorted (keyList df.rows ic)).getD j Value.nan,
          pivotCell df.rows ii ic iv i ((uniqueSorted (keyList df.rows ic)).getD j Value.nan))) := by
    intro j hj
    have hjlt := List.mem_range.mp hj
    obtain ⟨s, hs⟩ := hlabstr _ (getD_mem Value.nan hjlt)
    unfold pivotGridRows
    rw [List.map_map]
    apply List.map_congr_left
    intro i hi
    show ((i :: (uniqueSorted (keyList df.rows ic)).map
        (fun c => pivotCell df.rows ii ic iv i c)).getD 0 Value.nan,
      Value.str (labelOf ((uniqueSorted (keyList df.rows ic)).getD j Value.nan)),
      (i :: (uniqueSorted (keyList df.rows ic)).map
        (fun c => pivotCell df.rows ii ic iv i c)).getD (j + 1) Value.nan) = _
    rw [List.getD_cons_zero, List.getD_cons_succ,
      getD_map_lt Value.nan Value.nan _ hjlt, hs]
    rfl
  have e5 : (List.range (uniqueSorted (keyList df.rows ic)).length).flatMap
      (fun j => (pivotGridRows df.rows ii ic iv).map (fun r =>
        (r.getD 0 Value.nan,
          Value.str (labelOf ((uniqueSorted (keyList df.rows ic)).getD j Value.nan)),
          r.getD (j + 1) Value.nan))) =
      (uniqueSorted (keyList df.rows ic)).flatMap (fun c =>
        (uniqueSorted (keyList df.rows ii)).map (fun i =>
          (i, c, pivotCell df.rows ii ic iv i c))) := by
    rw [flatMap_congr_mem e4]
    conv_rhs => rw [← map_getD_range Value.nan (uniqueSorted (keyList df.rows ic))]
    rw [List.flatMap_map]
  have e7 : (((uniqueSorted (keyList df.rows ii)).product
      (uniqueSorted (keyList df.rows ic))).map
        (fun p => (p.1, p.2, pivotCell df.rows ii ic iv p.1 p.2))) =
      (uniqueSorted (keyList df.rows ii)).flatMap (fun i =>
        (uniqueSorted (keyList df.rows ic)).map (fun c =>
          (i, c, pivotCell df.rows ii ic iv i c))) := by
    rw [show (uniqueSorted (keyList df.rows ii)).product (uniqueSorted (keyList df.rows ic)) =
      (uniqueSorted (keyList df.rows ii)).flatMap
        (fun a => (uniqueSorted (keyList df.rows ic)).map (Prod.mk a)) from rfl]
    rw [List.map_flatMap]
    apply flatMap_congr_mem
    intro i _
    rw [List.map_map]
    rfl
  have e8 : (df.rows.map (fun r => (r.getD ii Value.nan, r.getD ic Value.nan))).map
      (fun p => (p.1, p.2, pivotCell df.rows ii ic iv p.1 p.2)) =
      df.rows.map (fun r =>
        (r.getD ii Value.nan, r.getD ic Value.nan, r.getD iv Value.nan)) := by
    rw [List.map_map]
    apply List.map_congr_left
    intro r hr
    show (r.getD ii Value.nan, r.getD ic Value.nan,
      pivotCell df.rows ii ic iv (r.getD ii Value.nan) (r.getD ic Value.nan)) = _
    rw [htrip r hr]
  refine ⟨_, _, _, hrt, htrdf, htosgen _, ?_⟩
  rw [zip3_keyList, zip3_keyList, e1, e2, List.flatMap_map, e5]
  refine (flatMap_comm _ _ _).trans ?_
  rw [← e7]
  refine ((hpairs.map _).symm).trans ?_
  rw [e8]

/-- A 2×2 grid of (index, pivot) keys, each pair occurring once. -/
def samplePivotTable : Table :=
  { header := ["i", "c", "v"],
    rows := [[Value.str "a", Value.str "p", Value.num 1],
      [Value.str "a", Value.str "q", Value.num 2],
      [Value.str "b", Value.str "p", Value.num 3],
      [Value.str "b", Value.str "q", Value.num 4]] }

theorem pivot_unpivot_roundtrip_grid_witness :
    ∃ out tr trOut,
      pivotRoundTrip samplePivotTable "v" "i" "c" "mean" = .ok out ∧
      triplesOf samplePivotTable "i" "c" "v" = some tr ∧
      triplesOf out "i" "variable" "value" = some trOut ∧
      trOut.Perm tr :=
  pivot_unpivot_roundtrip_grid samplePivotTable "v" "i" "c" 0 1 2
    (by decide) (by decide) (by decide)
    (by decide) (by decide) (by decide)
    (by decide) (by decide) (by decide)
    (by decide) (by decide) (by decide) (by decide)
